import Mathlib

/-!
Verification development for the docxgen template engine.

The Go sources are shallowly embedded over `Str := List Char` (Go strings are
byte strings; all inputs relevant here are ASCII, where Go's byte-wise and
rune-wise iteration coincide with `List Char` traversal).  Each definition
mirrors one Go function; the Go `strings` / `regexp` library calls are embedded
by small scanners with the exact semantics the source relies on (leftmost,
non-overlapping matches; greedy character classes).  Loops that are not
structurally recursive take an explicit fuel argument, always called with
fuel strictly larger than the input length, which is sufficient because every
iteration of every embedded loop consumes at least one character.
-/

set_option maxHeartbeats 1600000

abbrev Str := List Char

/-- Convert a Lean string literal to the byte-string model. -/
def litS (s : String) : Str := s.data

/-- Go `strings.Index`: position of the first occurrence of `sub` in `s`,
`none` for Go's `-1`. -/
def indexOf? (s sub : Str) : Option Nat :=
  match s with
  | [] => if sub.isEmpty then some 0 else none
  | _ :: t => if sub.isPrefixOf s then some 0 else (indexOf? t sub).map (· + 1)

/-- Go `strings.Contains`: `sub` occurs as a contiguous substring of `s`. -/
def containsSub (s sub : Str) : Bool := (indexOf? s sub).isSome

/-- Go `strings.HasPrefix`. -/
def hasPre (s pre : Str) : Bool := pre.isPrefixOf s

/-- Go `strings.HasSuffix`. -/
def hasSuf (s suf : Str) : Bool := suf.isSuffixOf s

/-- Go `strings.TrimPrefix`. -/
def dropPre (s pre : Str) : Str := if pre.isPrefixOf s then s.drop pre.length else s

/-- Go `strings.TrimSuffix`. -/
def dropSuf (s suf : Str) : Str :=
  if suf.isSuffixOf s then s.take (s.length - suf.length) else s

/-- Go `unicode.IsSpace` restricted to ASCII (the only characters produced by
the sources): space, tab, newline, vertical tab, form feed, carriage return. -/
def isGoSpace (c : Char) : Bool :=
  c = ' ' ∨ c = '\t' ∨ c = '\n' ∨ c = '\x0b' ∨ c = '\x0c' ∨ c = '\r'

/-- Go `strings.TrimSpace`. -/
def trimSpaceGo (s : Str) : Str :=
  ((s.dropWhile isGoSpace).reverse.dropWhile isGoSpace).reverse

/-- RE2 `\s` character class: `[\t\n\f\r ]`. -/
def isRE2Space (c : Char) : Bool :=
  c = '\t' ∨ c = '\n' ∨ c = '\x0c' ∨ c = '\r' ∨ c = ' '

/-- Fuel-driven worker for Go `strings.Split` with a non-empty separator. -/
def splitOnSubF : Nat → Str → Str → List Str
  | 0, s, _ => [s]
  | fuel + 1, s, sep =>
    match indexOf? s sep with
    | none => [s]
    | some i => s.take i :: splitOnSubF fuel (s.drop (i + sep.length)) sep

/-- Go `strings.Split s sep` for non-empty `sep`. -/
def splitOnSub (s sep : Str) : List Str := splitOnSubF (s.length + 1) s sep

/-- Go `strings.Join` with empty separator / concatenation of fragments. -/
def joinStr (l : List Str) : Str := l.flatten

/-- ASCII case folding, the fragment of Go `strings.ToLower` the sources meet. -/
def asciiLower (c : Char) : Char :=
  if 'A' ≤ c ∧ c ≤ 'Z' then Char.ofNat (c.toNat + 32) else c

/-- Go `strings.ToLower` over ASCII text. -/
def toLowerGo (s : Str) : Str := s.map asciiLower

/-- Fuel-driven worker for Go `strings.Replace s old new 1`. -/
def replaceFirstSub (s oldS newS : Str) : Str :=
  match indexOf? s oldS with
  | none => s
  | some i => s.take i ++ newS ++ s.drop (i + oldS.length)

/-- Go `strings.Cut`: split at the first occurrence of `sep`. -/
def cutGo (s sep : Str) : Str × Str × Bool :=
  match indexOf? s sep with
  | none => (s, [], false)
  | some i => (s.take i, s.drop (i + sep.length), true)

/-- Parse a non-empty run of decimal digits (Go `strconv.Atoi` on the digit
runs produced by the `%\[\s*(\d+)\s*]s` pattern). -/
def digitsToNat (ds : Str) : Nat :=
  ds.foldl (fun acc c => acc * 10 + (c.toNat - '0'.toNat)) 0

-- DOCX constants from consts.go
def ParagraphOpeningTag : Str := litS "<w:p>"
def ParagraphPartTag : Str := litS "w:p>"
def ParagraphClosingTag : Str := litS "</w:p>"
def TableOpeningTag : Str := litS "<w:tbl>"
def TablePartTag : Str := litS "w:tbl>"
def TableEndingTag : Str := litS "</w:tbl>"
def TableRowOpeningTag : Str := litS "<w:tr>"
def TableRowPartTag : Str := litS "w:tr>"
def TableRowClosingTag : Str := litS "</w:tr>"
def BodyOpeningTag : Str := litS "<w:body>"
def BodyClosingTag : Str := litS "</w:body>"
def ClosingPartTag : Str := litS "</"

-- ============================================================================
-- Tag repair (tags.go, two-flag RepairTags, lines 669-713)
-- ============================================================================

/-- The opening curly brace character. -/
def lbrace : Char := '\x7b'

/-- The closing curly brace character. -/
def rbrace : Char := '\x7d'

/-- The formatting-boundary prefixes RepairTags strips inside a marker:
`<w:t`, `</w:t>`, `<w:r`, `</w:r>`, `<w:rPr`, `</w:rPr>`, `<w:`. -/
def repairTok (s : Str) : Bool :=
  hasPre s (litS "<w:t") || hasPre s (litS "</w:t>") ||
  hasPre s (litS "<w:r") || hasPre s (litS "</w:r>") ||
  hasPre s (litS "<w:rPr") || hasPre s (litS "</w:rPr>") ||
  hasPre s (litS "<w:")

/-- One-character-indexed worker for `RepairTags`: state = (inCurly, inSquare),
remaining input; fuel bounds the iteration count (one unit per loop pass). -/
def repairF : Nat → Bool → Bool → Str → Str
  | 0, _, _, s => s
  | fuel + 1, inCurly, inSquare, s =>
    match s with
    | [] => []
    | c :: rest =>
      if ¬inCurly ∧ ¬inSquare then
        if c = lbrace then c :: repairF fuel true inSquare rest
        else if c = '[' then c :: repairF fuel inCurly true rest
        else c :: repairF fuel inCurly inSquare rest
      else
        match (if repairTok (c :: rest) then (c :: rest).findIdx? (· = '>') else none) with
        | some j => repairF fuel inCurly inSquare ((c :: rest).drop (j + 1))
        | none =>
          if (inCurly ∧ c = rbrace) ∨ (inSquare ∧ c = ']') then
            if inCurly then c :: repairF fuel false inSquare rest
            else c :: repairF fuel inCurly false rest
          else c :: repairF fuel inCurly inSquare rest

/-- RepairTags (tags.go:669): reassemble `{...}` / `[...]` markers that the
editor fragmented with `<w:...>` run boundaries.  The Go function also returns
an `error` value which is syntactically `nil` on its only return path; that
component is `RepairTagsErr`. -/
def RepairTags (body : Str) : Str := repairF (body.length + 1) false false body

/-- The error component of RepairTags' Go return value (always nil). -/
def RepairTagsErr (_body : Str) : Option Str := none

-- ============================================================================
-- Template transform (transform.go)
-- ============================================================================

/-- Modelled from the spec: Go `strconv.ParseFloat` success predicate used by
`transformTag` to decide whether an argument is "numeric-parseable".  The
library function itself is not in the repository; this recognizer accepts the
decimal forms `[+-]?digits[.digits][(e|E)[+-]?digits]` (at least one mantissa
digit), plus the `inf`/`infinity`/`nan` spellings.  No claim depends on it. -/
def goParseFloatOk (s : Str) : Bool :=
  let s1 := if hasPre s (litS "+") ∨ hasPre s (litS "-") then s.drop 1 else s
  let low := toLowerGo s1
  if low = litS "inf" ∨ low = litS "infinity" ∨ low = litS "nan" then true
  else
    let intPart := s1.takeWhile Char.isDigit
    let rest1 := s1.dropWhile Char.isDigit
    let fracPart :=
      match rest1 with
      | '.' :: r => some (r.takeWhile Char.isDigit, r.dropWhile Char.isDigit)
      | _ => none
    let rest2 := match fracPart with | some (_, r) => r | none => rest1
    let mantissaDigits := intPart.length + (match fracPart with | some (d, _) => d.length | none => 0)
    if mantissaDigits = 0 then false
    else
      match rest2 with
      | [] => true
      | e :: r =>
        if e = 'e' ∨ e = 'E' then
          let r1 := if hasPre r (litS "+") ∨ hasPre r (litS "-") then r.drop 1 else r
          decide (r1 ≠ []) && r1.all Char.isDigit
        else false

/-- looksLikeOldStyle (transform.go): should the tag go through transformTag. -/
def looksLikeOldStyle (tag : Str) : Bool :=
  let t := trimSpaceGo (dropSuf (dropPre tag [lbrace]) [rbrace])
  if hasPre t (litS ".") then false
  else if hasPre t (litS ".") || hasPre t (litS "`") || hasPre t (litS "\"") then false
  else if hasPre t (litS "if ") || hasPre t (litS "else") || hasPre t (litS "end") ||
          hasPre t (litS "range ") || hasPre t (litS "with ") then false
  else !(hasPre t (litS "."))

/-- State of transformTag's tokenizer: collected parts, current buffer,
inside-backtick flag. -/
def transformTagStep (st : List Str × Str × Bool) (r : Char) : List Str × Str × Bool :=
  let (parts, buf, inQuote) := st
  if r = '`' then
    if inQuote then (parts ++ [litS "\"" ++ buf ++ litS "\""], [], false)
    else (parts, [], true)
  else if r = '|' ∨ r = ':' then
    if inQuote then (parts, buf ++ [r], inQuote)
    else if buf.length > 0 then (parts ++ [buf], [], inQuote)
    else (parts, buf, inQuote)
  else (parts, buf ++ [r], inQuote)

/-- Coercion of one positional argument in transformTag's output builder. -/
def transformArg (arg : Str) : Str :=
  if hasPre arg (litS "\"") ∧ hasSuf arg (litS "\"") then litS " " ++ arg
  else if goParseFloatOk arg then litS " " ++ arg
  else litS " \"" ++ arg ++ litS "\""

/-- transformTag (transform.go): convert `{name|mod:arg}` into the evaluator's
`{.name | mod "arg"}` form, honouring backtick-quoted literals. -/
def transformTag (tag : Str) : Str :=
  let body := dropSuf (dropPre tag [lbrace]) [rbrace]
  let (parts0, buf, inQuote) := body.foldl transformTagStep ([], [], false)
  let parts :=
    if buf.length > 0 then
      if inQuote then parts0 ++ [litS "\"" ++ buf ++ litS "\""] else parts0 ++ [buf]
    else parts0
  match parts with
  | [] => [lbrace, rbrace]
  | p0 :: rest =>
    let head := [lbrace, '.'] ++ trimSpaceGo p0
    let tail :=
      match rest with
      | [] => []
      | p1 :: args => litS " | " ++ trimSpaceGo p1 ++ joinStr (args.map transformArg)
    head ++ tail ++ [rbrace]

/-- One step of TransformTemplate's rune loop.
State: (out, token, inTag, inQuote). -/
def transformStep (st : Str × Str × Bool × Bool) (r : Char) : Str × Str × Bool × Bool :=
  let (out, token, inTag, inQuote) := st
  if r = lbrace then
    if inTag then (out, token ++ [r], inTag, inQuote)
    else (out, [r], true, inQuote)
  else if r = '`' then
    if inTag then (out, token ++ [r], inTag, !inQuote)
    else (out, token ++ [r], inTag, inQuote)
  else if r = rbrace then
    if inTag ∧ ¬inQuote then
      let tok := token ++ [r]
      (out ++ (if looksLikeOldStyle tok then transformTag tok else tok), tok, false, inQuote)
    else if inTag then (out, token ++ [r], inTag, inQuote)
    else (out ++ [r], token, inTag, inQuote)
  else if inTag then (out, token ++ [r], inTag, inQuote)
  else (out ++ [r], token, inTag, inQuote)

/-- TransformTemplate (transform.go): document-wide driver converting each
complete non-native `{...}` marker via transformTag; an unterminated trailing
marker is flushed as literal text. -/
def TransformTemplate (input : Str) : Str :=
  let st := input.foldl transformStep ([], [], false, false)
  if st.2.2.1 then st.1 ++ st.2.1 else st.1

-- ============================================================================
-- Regex scanners (smart_table.go rePerc / reBraceName / reNameMod /
-- reBacktickMod / reExact), embedded as leftmost non-overlapping matchers
-- ============================================================================

/-- Character class `[A-Za-z0-9_.]` of reBraceName / reNameMod. -/
def isNameChar (c : Char) : Bool :=
  ('A' ≤ c ∧ c ≤ 'Z') ∨ ('a' ≤ c ∧ c ≤ 'z') ∨ c.isDigit ∨ c = '_' ∨ c = '.'

/-- Character class `[ \t]`. -/
def isSpTab (c : Char) : Bool := c = ' ' ∨ c = '\t'

/-- Try to match `%\[\s*(\d+)\s*]s` (rePerc) at the head of `s`; on success
return the captured index, the exact matched text, and the rest of `s`. -/
def matchPercAt : Str → Option (Nat × Str × Str)
  | '%' :: '[' :: r =>
    let ws1 := r.takeWhile isRE2Space
    let r1 := r.dropWhile isRE2Space
    let ds := r1.takeWhile Char.isDigit
    let r2 := r1.dropWhile Char.isDigit
    if ds.isEmpty then none
    else
      let ws2 := r2.takeWhile isRE2Space
      let r3 := r2.dropWhile isRE2Space
      match r3 with
      | ']' :: 's' :: r4 =>
        some (digitsToNat ds, '%' :: '[' :: (ws1 ++ ds ++ ws2 ++ [']', 's']), r4)
      | _ => none
  | _ => none

/-- Fuel-driven scan of a string into literal characters and rePerc matches
(the shared decomposition behind `FindAllStringSubmatch` and
`ReplaceAllStringFunc` for rePerc). -/
def percScanF : Nat → Str → List (Sum Char (Nat × Str))
  | 0, _ => []
  | _, [] => []
  | fuel + 1, c :: rest =>
    match matchPercAt (c :: rest) with
    | some (n, raw, r4) => Sum.inr (n, raw) :: percScanF fuel r4
    | none => Sum.inl c :: percScanF fuel rest

/-- Leftmost non-overlapping rePerc decomposition of `s`. -/
def percScan (s : Str) : List (Sum Char (Nat × Str)) := percScanF (s.length + 1) s

/-- The placeholder indices of `s`, in scan order. -/
def percIndices (s : Str) : List Nat :=
  (percScan s).filterMap (fun t => match t with | .inl _ => none | .inr (n, _) => some n)

-- ============================================================================
-- Smart table engine (smart_table.go)
-- ============================================================================

/-- Go `any` values reaching the smart-table engine.  `map[string]string` and
`[]string` inputs are converted by the source to `map[string]any` / `[]any`
with identical contents, so `vmap` / `vlist` cover them.  `scalar` is any other
printable value carrying its `fmt.Sprint` rendering. -/
inductive GoVal where
  | str (s : Str)
  | vmap (entries : List (Str × GoVal))
  | vlist (elems : List GoVal)
  | scalar (printed : Str)

/-- Go `fmt.Sprint`.  Strings print as themselves and scalars carry their
printed form; composite values get a nominal rendering, which no claim
observes (the engine only prints map-field values and slice elements). -/
def sprint : GoVal → Str
  | .str s => s
  | .scalar p => p
  | .vmap _ => litS "map[?]"
  | .vlist _ => litS "[?]"

/-- First-match association-list lookup, the embedding of Go map indexing
(Go maps hold one value per key). -/
def lookupS {α : Type} (m : List (Str × α)) (k : Str) : Option α :=
  match m with
  | [] => none
  | (k', v) :: t => if k' = k then some v else lookupS t k

/-- replacePerc's per-token replacement: `%[N]s` becomes `fmt.Sprint(arr[N-1])`
when `1 ≤ N ≤ len(arr)` and the empty string otherwise. -/
def percReplToken (arr : List GoVal) (n : Nat) : Str :=
  if h : 1 ≤ n ∧ n ≤ arr.length then sprint (arr.get ⟨n - 1, by omega⟩) else []

/-- replacePerc (smart_table.go:533): replace every `%[N]s` in `s` from `arr`
(1-based indexing), out-of-range indices becoming the empty string. -/
def replacePerc (s : Str) (arr : List GoVal) : Str :=
  joinStr ((percScan s).map (fun t =>
    match t with
    | .inl c => [c]
    | .inr (n, _) => percReplToken arr n))

/-- Try to match reBacktickMod `(?s)\{[ \t]*`+"`"+`([^`+"`"+`]*)`+"`"+`[ \t]*\|([^}]*)}`
at the head; returns (inside, modTail, rest). -/
def matchBacktickModAt : Str → Option (Str × Str × Str)
  | c :: r =>
    if c = lbrace then
      let r1 := r.dropWhile isSpTab
      match r1 with
      | '`' :: r2 =>
        let inside := r2.takeWhile (fun d => !(d = '`'))
        let r3 := r2.dropWhile (fun d => !(d = '`'))
        match r3 with
        | '`' :: r4 =>
          let r5 := r4.dropWhile isSpTab
          match r5 with
          | '|' :: r6 =>
            let modTail := r6.takeWhile (fun d => !(d = rbrace))
            let r7 := r6.dropWhile (fun d => !(d = rbrace))
            match r7 with
            | _ :: r8 => some (inside, modTail, r8)
            | [] => none
          | _ => none
        | _ => none
      | _ => none
    else none
  | [] => none

/-- Fuel-driven pass 1 of renderPositional: rewrite every
backtick-literal-with-modifier token, resolving `%[N]s` inside the literal. -/
def backtickPassF (arr : List GoVal) : Nat → Str → Str
  | 0, s => s
  | _, [] => []
  | fuel + 1, c :: rest =>
    match matchBacktickModAt (c :: rest) with
    | some (inside, modTail, r8) =>
      (litS "\x7b `" ++ replacePerc inside arr ++ litS "` | " ++ trimSpaceGo modTail ++ litS " \x7d")
        ++ backtickPassF arr fuel r8
    | none => c :: backtickPassF arr fuel rest

/-- renderPositional (smart_table.go:513): resolve backtick-literal pipeline
tokens, then bare `%[N]s` placeholders. -/
def renderPositional (xmlTpl : Str) (arr : List GoVal) : Str :=
  replacePerc (backtickPassF arr (xmlTpl.length + 1) xmlTpl) arr

/-- Try to match reBraceName `\{[ \t]*([A-Za-z0-9_.]+)[ \t]*[|}]` at the head;
returns (captured name, rest after the whole match). -/
def matchBraceNameAt : Str → Option (Str × Str)
  | c :: r =>
    if c = lbrace then
      let r1 := r.dropWhile isSpTab
      let nm := r1.takeWhile isNameChar
      let r2 := r1.dropWhile isNameChar
      if nm.isEmpty then none
      else
        let r3 := r2.dropWhile isSpTab
        match r3 with
        | d :: r4 => if d = '|' ∨ d = rbrace then some (nm, r4) else none
        | [] => none
    else none
  | [] => none

/-- Fuel-driven FindAllStringSubmatch for reBraceName: captured names of the
leftmost non-overlapping matches. -/
def braceScanF : Nat → Str → List Str
  | 0, _ => []
  | _, [] => []
  | fuel + 1, c :: rest =>
    match matchBraceNameAt (c :: rest) with
    | some (nm, r4) => nm :: braceScanF fuel r4
    | none => braceScanF fuel rest

/-- Template-row metadata (smart_table.go tplMeta). -/
structure TplMeta where
  names : List Str
  percentSeen : Nat
deriving DecidableEq

/-- parseTplMeta (smart_table.go:564): brace-marker names (trimmed, non-empty)
and the count of `%[N]s` placeholders in one row's XML. -/
def parseTplMeta (rowXML : Str) : TplMeta :=
  ⟨((braceScanF (rowXML.length + 1) rowXML).map trimSpaceGo).filter
      (fun n => decide (n ≠ [])),
   (percIndices rowXML).length⟩

/-- metaHasAnyKnown (smart_table.go:412). -/
def metaHasAnyKnown (meta : TplMeta) (known : List Str) : Bool :=
  meta.names.any (fun n => known.contains n)

/-- collectLocalKeys (smart_table.go:423): names of local fields across the
input items (single-entry wrapper maps contribute their inner map's keys; flat
maps without slice values contribute their own keys). -/
def collectLocalKeys (items : List GoVal) : List Str :=
  items.foldl (fun keys it =>
    match it with
    | .vmap m =>
      if m.length = 1 then
        keys ++ m.foldl (fun acc kv =>
          match kv.2 with
          | .vmap inner => acc ++ inner.map (·.1)
          | _ => acc) []
      else
        if m.all (fun kv => match kv.2 with | .vlist _ => false | _ => true) then
          keys ++ m.map (·.1)
        else keys
    | _ => keys) []

/-- One classified table row (smart_table.go tplRow). -/
structure TplRow where
  idx : Nat
  xml : Str
  meta : TplMeta
  isNamed : Bool
  isPos : Bool
  isStatic : Bool
deriving DecidableEq

/-- Default TplRow (for the unchecked Go slice indexing `templates[tidx]`,
which the engine only performs at in-range indices). -/
def dfltTpl : TplRow := ⟨0, [], ⟨[], 0⟩, false, false, true⟩

/-- Row classification from RenderSmartTable's first loop (smart_table.go:208):
Positional if any `%[N]s`; else Named if it has brace names and at least one is
locally known; else Static. -/
def mkTplRows (localKeys : List Str) (rows : List Str) : List TplRow :=
  rows.enum.map (fun p =>
    let m := parseTplMeta p.2
    let isPos := decide (m.percentSeen > 0)
    let isNamed := !isPos && decide (m.names.length > 0) && metaHasAnyKnown m localKeys
    ⟨p.1, p.2, m, isNamed, isPos, !isPos && !isNamed⟩)

/-- A row is part of the form library. -/
def isFormRow (t : TplRow) : Bool := t.isNamed || t.isPos

/-- Index of the first classified row (Go firstTplIdx; `none` for `-1`). -/
def firstTplIdx (trs : List TplRow) : Option Nat := trs.findIdx? isFormRow

/-- Worker for `lastTplIdx`. -/
def lastFormIdxAux : List TplRow → Nat → Option Nat
  | [], _ => none
  | t :: ts, i =>
    match lastFormIdxAux ts (i + 1) with
    | some j => some j
    | none => if isFormRow t then some i else none

/-- Index of the last classified row (Go lastTplIdx; `none` for `-1`). -/
def lastTplIdx (trs : List TplRow) : Option Nat := lastFormIdxAux trs 0

/-- Header rows: the rows strictly before the first classified row. -/
def headerRowsOf (trs : List TplRow) (rows : List Str) : List Str :=
  match firstTplIdx trs with
  | some i => rows.take i
  | none => []

/-- Footer rows: the rows strictly after the last classified row. -/
def footerRowsOf (trs : List TplRow) (rows : List Str) : List Str :=
  match lastTplIdx trs with
  | some j => rows.drop (j + 1)
  | none => []

/-- The form library: the classified rows in document order. -/
def templatesOf (trs : List TplRow) : List TplRow := trs.filter isFormRow

/-- Item kinds after normalization (Go normItem.kind strings). -/
inductive ItemKind | mapK | sliceK | otherK
deriving DecidableEq

/-- Normalized item (smart_table.go normItem; the unused `raw` field holding
the original value is dropped — nothing downstream reads it). -/
structure NormItem where
  groupKey : Str
  kind : ItemKind
  mapVal : List (Str × GoVal)
  sliceVal : List GoVal

instance : Inhabited NormItem := ⟨⟨[], .otherK, [], []⟩⟩

/-- Flat-map fallback of normalizeItem: a map whose values contain no slices
is a one-shot Map item without a groupKey; with slices it is `other`. -/
def normalizeFlat (m : List (Str × GoVal)) : NormItem :=
  if m.any (fun kv => match kv.2 with | .vlist _ => true | _ => false) then
    ⟨[], .otherK, [], []⟩
  else ⟨[], .mapK, m, []⟩

/-- normalizeItem (smart_table.go:582): `{label:{...}}` ⇒ Map with groupKey,
`{label:[...]}` ⇒ Slice with groupKey, flat map ⇒ Map without groupKey,
bare slice ⇒ Slice, anything else ⇒ other. -/
def normalizeItem (v : GoVal) : NormItem :=
  match v with
  | .vmap m =>
    match m with
    | [(gk, .vmap x)] => ⟨gk, .mapK, x, []⟩
    | [(gk, .vlist x)] => ⟨gk, .sliceK, [], x⟩
    | _ => normalizeFlat m
  | .vlist a => ⟨[], .sliceK, [], a⟩
  | _ => ⟨[], .otherK, [], []⟩

/-- The per-template score of tryMatch's inner loop (smart_table.go:278):
Named forms score the number of covered field names; Positional forms score by
cardinality proximity (`1000+seen` on exact match, else `100-|diff|`). -/
def score (it : NormItem) (t : TplRow) : Int :=
  if it.kind = .mapK ∧ t.isNamed then
    Int.ofNat (t.meta.names.countP (fun name => (lookupS it.mapVal name).isSome))
  else if it.kind = .sliceK ∧ t.isPos then
    let seen : Int := Int.ofNat t.meta.percentSeen
    let diff := seen - Int.ofNat it.sliceVal.length
    let adiff := if diff < 0 then -diff else diff
    if seen = Int.ofNat it.sliceVal.length then 1000 + seen else 100 - adiff
  else 0

/-- tryMatch (smart_table.go:278): best-scoring template, strict improvement
only (the first maximum wins); `(-1, 0)` when no positive score exists. -/
def tryMatch (templates : List TplRow) (it : NormItem) : Int × Int :=
  let best := templates.enum.foldl (fun (acc : Int × Int) (p : Nat × TplRow) =>
    let sc := score it p.2
    if sc > acc.1 then (sc, Int.ofNat p.1) else acc) (-1, -1)
  if best.1 ≤ 0 then (-1, 0) else (best.2, best.1)

/-- Matching state threaded through pass 1 (binding map, assignments in item
order, wait-zone item indices in order).  The Go `buckets` array is determined
by `assigned` (an item index enters bucket `b` exactly when `assigned[idx]` is
set to `b`), so union fields are recovered from `assigned` below. -/
structure MatchSt where
  binding : List (Str × Int)
  assigned : List Int
  wait : List Nat

/-- The shared tryMatch branch of pass 1. -/
def pass1Match (templates : List TplRow) (st : MatchSt) (idx : Nat) (it : NormItem) : MatchSt :=
  let r := tryMatch templates it
  if r.2 > 0 then
    ⟨(if it.groupKey ≠ [] then (it.groupKey, r.1) :: st.binding else st.binding),
     st.assigned ++ [r.1], st.wait⟩
  else ⟨st.binding, st.assigned ++ [-2], st.wait ++ [idx]⟩

/-- Pass 1 (smart_table.go:316): per item in arrival order, an established
groupKey binding routes immediately; otherwise bind to the best positive score
(recording the groupKey binding) or enter the wait zone. -/
def pass1 (templates : List TplRow) (nitems : List NormItem) : MatchSt :=
  nitems.enum.foldl (fun st p =>
    if p.2.groupKey ≠ [] then
      match lookupS st.binding p.2.groupKey with
      | some b => ⟨st.binding, st.assigned ++ [b], st.wait⟩
      | none => pass1Match templates st p.1 p.2
    else pass1Match templates st p.1 p.2) ⟨[], [], []⟩

/-- One wait-zone retry of pass 2 (smart_table.go:341). -/
def pass2Step (templates : List TplRow) (nitems : List NormItem)
    (acc : List (Str × Int) × List Int) (idx : Nat) : List (Str × Int) × List Int :=
  let it := nitems.getD idx default
  let noBind :=
    let r := tryMatch templates it
    if r.2 > 0 then
      ((if it.groupKey ≠ [] then (it.groupKey, r.1) :: acc.1 else acc.1), acc.2.set idx r.1)
    else (acc.1, acc.2.set idx (-1))
  if it.groupKey ≠ [] then
    match lookupS acc.1 it.groupKey with
    | some b => (acc.1, acc.2.set idx b)
    | none => noBind
  else noBind

/-- Passes 1 and 2 combined: the final binding map and assignment vector. -/
def matchItems (templates : List TplRow) (nitems : List NormItem) :
    List (Str × Int) × List Int :=
  let st := pass1 templates nitems
  st.wait.foldl (pass2Step templates nitems) (st.binding, st.assigned)

/-- Pass 3 (smart_table.go:368): for a Named form, the union of field names
over all items assigned to it (as a membership list). -/
def unionFields (templates : List TplRow) (nitems : List NormItem)
    (assigned : List Int) (tIdx : Nat) : List Str :=
  if (templates.getD tIdx dfltTpl).isNamed then
    (nitems.enum.filterMap (fun p =>
      if assigned.getD p.1 (-1) = Int.ofNat tIdx then some (p.2.mapVal.map (·.1))
      else none)).flatten
  else []

/-- Try to match reNameMod `\{[ \t]*([A-Za-z0-9_.]+)[ \t]*\|([^}]*)}` at the
head; returns (name, modTail, raw matched text, rest). -/
def matchNameModAt : Str → Option (Str × Str × Str × Str)
  | c :: r =>
    if c = lbrace then
      let ws1 := r.takeWhile isSpTab
      let r1 := r.dropWhile isSpTab
      let nm := r1.takeWhile isNameChar
      let r2 := r1.dropWhile isNameChar
      if nm.isEmpty then none
      else
        let ws2 := r2.takeWhile isSpTab
        let r3 := r2.dropWhile isSpTab
        match r3 with
        | '|' :: r4 =>
          let modTail := r4.takeWhile (fun d => !(d = rbrace))
          let r5 := r4.dropWhile (fun d => !(d = rbrace))
          match r5 with
          | _ :: r6 =>
            some (nm, modTail,
              c :: (ws1 ++ nm ++ ws2 ++ '|' :: modTail ++ [rbrace]), r6)
          | [] => none
        | _ => none
    else none
  | [] => none

/-- Fuel-driven pass 1 of renderNamedWithUnion: rewrite `{name|mods}` tokens
by the L1 (own field) / L2 (bucket union ⇒ empty literal) / L3-L4 (leave)
precedence. -/
def nameModPassF (data : List (Str × GoVal)) (union : List Str) : Nat → Str → Str
  | 0, s => s
  | _, [] => []
  | fuel + 1, c :: rest =>
    match matchNameModAt (c :: rest) with
    | some (nm, modTail, raw, r6) =>
      (match lookupS data nm with
       | some v => litS "\x7b `" ++ sprint v ++ litS "` | " ++ trimSpaceGo modTail ++ litS " \x7d"
       | none =>
         if union.contains nm then
           litS "\x7b `` | " ++ trimSpaceGo modTail ++ litS " \x7d"
         else raw) ++ nameModPassF data union fuel r6
    | none => c :: nameModPassF data union fuel rest

/-- Try to match reExact `\{[ \t]*name[ \t]*\}` (name quoted literally) at the
head; returns the rest after the match. -/
def matchExactAt (name : Str) : Str → Option Str
  | c :: r =>
    if c = lbrace then
      let r1 := r.dropWhile isSpTab
      if name.isPrefixOf r1 then
        let r2 := r1.drop name.length
        let r3 := r2.dropWhile isSpTab
        match r3 with
        | d :: r4 => if d = rbrace then some r4 else none
        | [] => none
      else none
    else none
  | [] => none

/-- Fuel-driven ReplaceAllString for reExact: replace every `{ name }` token
by `val` (replacement text is not rescanned). -/
def exactReplaceF (name val : Str) : Nat → Str → Str
  | 0, s => s
  | _, [] => []
  | fuel + 1, c :: rest =>
    match matchExactAt name (c :: rest) with
    | some r4 => val ++ exactReplaceF name val fuel r4
    | none => c :: exactReplaceF name val fuel rest

/-- renderNamedWithUnion (smart_table.go:467): pipeline tokens first, then
pure `{name}` tokens, with the L1/L2/L3-L4 substitution precedence.
(Go's ReplaceAllString would additionally expand `$` references occurring in
substituted values; no value in any claim contains `$`.) -/
def renderNamedWithUnion (xmlTpl : Str) (meta : TplMeta) (data : List (Str × GoVal))
    (union : List Str) : Str :=
  let out1 := nameModPassF data union (xmlTpl.length + 1) xmlTpl
  meta.names.foldl (fun out name =>
    match lookupS data name with
    | some v => exactReplaceF name (sprint v) (out.length + 1) out
    | none =>
      if union.contains name then exactReplaceF name [] (out.length + 1) out
      else out) out1

/-- The result-generation loop of RenderSmartTable (smart_table.go:390): one
output row per non-skipped item, rendered by its bound form. -/
def renderDataRows (templates : List TplRow) (uf : Nat → List Str) :
    List NormItem → List Int → List Str
  | [], _ => []
  | _ :: _, [] => []
  | it :: its, a :: rest =>
    if a < 0 then renderDataRows templates uf its rest
    else
      let t := templates.getD a.toNat dfltTpl
      (if t.isPos then renderPositional t.xml it.sliceVal
       else renderNamedWithUnion t.xml t.meta it.mapVal (uf a.toNat))
        :: renderDataRows templates uf its rest

/-- stripOuterTable (smart_table.go:638). -/
def stripOuterTable (s : Str) : Str :=
  let trim := trimSpaceGo s
  if hasPre trim TableOpeningTag ∧ hasSuf trim TableEndingTag then
    dropSuf (dropPre trim TableOpeningTag) TableEndingTag
  else trim

/-- extractTableRows (smart_table.go:647): split on `</w:tr>` and keep the
chunks that mention a row tag, re-appending the closing tag. -/
def extractTableRows (tbl : Str) : List Str :=
  let s := trimSpaceGo tbl
  let parts := splitOnSub s TableRowClosingTag
  (parts.filter (fun p => containsSub (toLowerGo p) TableRowPartTag)).map
    (fun p => p ++ TableRowClosingTag)

/-- RenderSmartTable (smart_table.go:186): classify rows into header / form
library / footer, normalize items, run the three matching passes, and emit
header + one row per bound item + footer. -/
def RenderSmartTable (tableXML : Str) (items : List GoVal) : Except Str Str :=
  let inner := stripOuterTable tableXML
  let rows := extractTableRows inner
  if rows.length = 0 then .error (litS "smart table: no rows found")
  else
    let localKeys := collectLocalKeys items
    let tplRows := mkTplRows localKeys rows
    let headerRows := headerRowsOf tplRows rows
    let footerRows := footerRowsOf tplRows rows
    let templates := templatesOf tplRows
    if templates.length = 0 then .ok (TableOpeningTag ++ inner ++ TableEndingTag)
    else
      let nitems := (items.map normalizeItem).filter (fun ni => decide (ni.kind ≠ .otherK))
      if nitems.length = 0 then
        .ok (TableOpeningTag ++ joinStr headerRows ++ joinStr footerRows ++ TableEndingTag)
      else
        let assigned := (matchItems templates nitems).2
        let outRows :=
          headerRows ++
          renderDataRows templates (unionFields templates nitems assigned) nitems assigned ++
          footerRows
        .ok (TableOpeningTag ++ joinStr outRows ++ TableEndingTag)

-- ============================================================================
-- Whitespace trim engine (src/unnamed/part_002)
-- ============================================================================

/-- Whitespace classification of a text node (part_002 wsKind). -/
inductive WsKind | wsNone | wsSpacesTabs | wsHasNewline
deriving DecidableEq

/-- classifyWS (part_002:390). -/
def classifyWS (s : Str) : WsKind :=
  if s = litS "\t" then .wsSpacesTabs
  else if s = litS "\n" then .wsHasNewline
  else if s.all (fun r => r = ' ' ∨ r = '\t') then .wsSpacesTabs
  else if s.all (fun r => r = ' ' ∨ r = '\t' ∨ r = '\n') then
    if s.contains '\n' then .wsHasNewline else .wsSpacesTabs
  else .wsNone

/-- Trim strength of one side (part_002 trimSide). -/
inductive TrimSide | trimNone | trimST | trimSTN
deriving DecidableEq

/-- computeMasks (part_002:422): left mask from `{~` / `{-`, right mask from
`~}` / `-}`, each side independently. -/
def computeMasks (tagText : Str) : TrimSide × TrimSide :=
  let left :=
    if containsSub tagText (litS "\x7b~") then TrimSide.trimSTN
    else if containsSub tagText (litS "\x7b-") then TrimSide.trimST
    else TrimSide.trimNone
  let right :=
    if containsSub tagText (litS "~\x7d") then TrimSide.trimSTN
    else if containsSub tagText (litS "-\x7d") then TrimSide.trimST
    else TrimSide.trimNone
  (left, right)

/-- canEat (part_002:437): may a whitespace node be removed under a mask. -/
def canEat (kind : WsKind) (side : TrimSide) : Bool :=
  if side = .trimNone ∨ kind = .wsNone then false
  else if side = .trimST then kind = .wsSpacesTabs
  else kind = .wsSpacesTabs ∨ kind = .wsHasNewline

/-- Fuel-driven worker for Go `strings.ReplaceAll` (non-empty pattern). -/
def replaceAllSubF : Nat → Str → Str → Str → Str
  | 0, s, _, _ => s
  | fuel + 1, s, oldS, newS =>
    match indexOf? s oldS with
    | none => s
    | some i => s.take i ++ newS ++ replaceAllSubF fuel (s.drop (i + oldS.length)) oldS newS

/-- Go `strings.ReplaceAll` (non-empty pattern). -/
def replaceAllSub (s oldS newS : Str) : Str := replaceAllSubF (s.length + 1) s oldS newS

/-- stripMarkersInPlace (part_002:448): `{~`/`{-` become `{`, `~}`/`-}` become `}`. -/
def stripMarkersInPlace (s : Str) : Str :=
  replaceAllSub (replaceAllSub (replaceAllSub (replaceAllSub s
    (litS "\x7b~") (litS "\x7b")) (litS "\x7b-") (litS "\x7b"))
    (litS "~\x7d") (litS "\x7d")) (litS "-\x7d") (litS "\x7d")

/-- The trim-marker test of ProcessTrimTags' node walk (part_002:576). -/
def hasTrimMarkers (s : Str) : Bool :=
  containsSub s (litS "\x7b~") || containsSub s (litS "~\x7d") ||
  containsSub s (litS "\x7b-") || containsSub s (litS "-\x7d")

/-- Whether one node is eatable under a side's mask. -/
def canEatNode (side : TrimSide) (t : Str) : Bool := canEat (classifyWS t) side

/-- The while-loop of one side of the walk (part_002:587 and :598): remove
adjacent nodes while eatable, stopping at the first non-eatable node. -/
def eatRun (side : TrimSide) (l : List Str) : List Str := l.dropWhile (canEatNode side)

/-- The per-run node walk of ProcessTrimTags (part_002:572-608), as a zipper:
`done` holds the already-processed nodes nearest-first.  A marker node eats
leftwards into `done` under its left mask and rightwards into the remaining
nodes under its right mask, then is stripped of its decorations. -/
def trimWalkF : Nat → List Str → List Str → List Str
  | 0, done, rest => done.reverse ++ rest
  | _, done, [] => done.reverse
  | fuel + 1, done, t :: ts =>
    if hasTrimMarkers t then
      let m := computeMasks t
      trimWalkF fuel (stripMarkersInPlace t :: eatRun m.1 done) (eatRun m.2 ts)
    else trimWalkF fuel (t :: done) ts

/-- The text-node list of one `<w:r>` run after ProcessTrimTags' walk
(part_002:566-609; the surrounding XML parse / serialize stages carry the
node list to and from this walk unchanged). -/
def ProcessTrimTagsRun (texts : List Str) : List Str :=
  trimWalkF (texts.length + 1) [] texts

-- ============================================================================
-- Paragraph splice and table driver (tags.go:550 ReplaceTagWithParagraph,
-- smart_table.go:30 ResolveTables)
-- ============================================================================

/-- xmlEscape (tags.go:636). -/
def xmlEscapeGo (s : Str) : Str :=
  s.flatMap (fun c =>
    if c = '&' then litS "&amp;"
    else if c = '<' then litS "&lt;"
    else if c = '>' then litS "&gt;"
    else if c = '"' then litS "&quot;"
    else if c = '\'' then litS "&apos;" else [c])

/-- Worker for extractParagraphText (tags.go:617). -/
def extractParagraphTextF : Nat → Str → Str
  | 0, _ => []
  | fuel + 1, p =>
    match indexOf? p (litS "<w:t>") with
    | none => []
    | some start =>
      let rest := p.drop (start + 5)
      match indexOf? rest (litS "</w:t>") with
      | none => []
      | some e => rest.take e ++ extractParagraphTextF fuel (rest.drop (e + 6))

/-- extractParagraphText (tags.go:617): concatenation of all `<w:t>...</w:t>`
contents of a paragraph. -/
def extractParagraphText (p : Str) : Str := extractParagraphTextF (p.length + 1) p

/-- The synthetic paragraph opener emitted for split pre/post text. -/
def wtPre : Str := litS "<w:p><w:r><w:t xml:space=\"preserve\">"

/-- The synthetic paragraph closer emitted for split pre/post text. -/
def wtSuf : Str := litS "</w:t></w:r></w:p>"

/-- Worker for ReplaceTagWithParagraph, processing the remaining suffix. -/
def rtwpF (tag content : Str) : Nat → Str → Str
  | 0, s => s
  | fuel + 1, s =>
    match indexOf? s ParagraphOpeningTag with
    | none => s
    | some start =>
      match indexOf? (s.drop start) ParagraphClosingTag with
      | none => s
      | some e =>
        let endPos := start + e + ParagraphClosingTag.length
        let paragraph := (s.drop start).take (e + ParagraphClosingTag.length)
        let text := extractParagraphText paragraph
        if ¬containsSub text tag then
          s.take endPos ++ rtwpF tag content fuel (s.drop endPos)
        else if trimSpaceGo text = tag then
          s.take start ++ content ++ rtwpF tag content fuel (s.drop endPos)
        else
          let bc := cutGo text tag
          s.take start ++
          (if trimSpaceGo bc.1 ≠ [] then wtPre ++ xmlEscapeGo (trimSpaceGo bc.1) ++ wtSuf else []) ++
          content ++
          (if trimSpaceGo bc.2.1 ≠ [] then wtPre ++ xmlEscapeGo (trimSpaceGo bc.2.1) ++ wtSuf else []) ++
          rtwpF tag content fuel (s.drop endPos)

/-- ReplaceTagWithParagraph (tags.go:550): scan `<w:p>...</w:p>` paragraphs;
a paragraph whose text trim-equals `tag` is replaced by `content` unwrapped;
a paragraph containing `tag` with other text is split into pre-text paragraph,
`content`, post-text paragraph; other paragraphs pass through. -/
def ReplaceTagWithParagraph (body tag content : Str) : Str :=
  rtwpF tag content (body.length + 1) body

/-- normalizeItems (smart_table.go:119): accept slice-shaped data (the typed
variants `[]map[string]any`, `[]map[string]string`, `[][]any`, `[][]string`
are converted elementwise by the source and collapse to `vlist` here). -/
def normalizeItems (v : GoVal) : Option (List GoVal) :=
  match v with
  | .vlist x => some x
  | _ => none

/-- Result of one iteration of ResolveTables' loop: `done` for `break` paths,
`next` for `continue` paths. -/
inductive StepRes where
  | done (b : Str)
  | next (b : Str)
deriving DecidableEq

/-- One iteration of the ResolveTables loop (smart_table.go:34-114).  On the
missing-table path Go computes `inner[tblStart:tblEnd]` which panics when the
`</w:tbl>` sits before `<w:tbl`; the embedding's `take`/`drop` yield an empty
slice there instead (no claim reaches that corner). -/
def resolveTablesStep (data : List (Str × GoVal)) (body : Str) : StepRes :=
  match indexOf? body (litS "[table/") with
  | none => .done body
  | some start =>
    match indexOf? (body.drop start) (litS "]") with
    | none => .done (ReplaceTagWithParagraph body (body.drop start) [])
    | some oe =>
      let openEnd := start + oe + 1
      let openTag := (body.drop start).take (oe + 1)
      let name := dropSuf (dropPre openTag (litS "[table/")) (litS "]")
      match indexOf? (body.drop openEnd) (litS "[/table]") with
      | none => .done (ReplaceTagWithParagraph body openTag [])
      | some cp =>
        let inner := (body.drop openEnd).take cp
        match indexOf? inner (litS "<w:tbl"), indexOf? inner (litS "</w:tbl>") with
        | some tblStart, some tblEnd0 =>
          let tblEnd := tblEnd0 + 8
          let tableXML := (inner.drop tblStart).take (tblEnd - tblStart)
          let body1 := ReplaceTagWithParagraph body (litS "[/table]") []
          match lookupS data name with
          | none => .next (ReplaceTagWithParagraph body1 openTag [])
          | some raw =>
            match normalizeItems raw with
            | none => .next (ReplaceTagWithParagraph body1 openTag [])
            | some items =>
              match RenderSmartTable tableXML items with
              | .error _ => .next (ReplaceTagWithParagraph body1 openTag [])
              | .ok rendered =>
                if trimSpaceGo rendered = [] then
                  .next (ReplaceTagWithParagraph body1 openTag [])
                else
                  .next (ReplaceTagWithParagraph (replaceFirstSub body1 tableXML [])
                    openTag rendered)
        | _, _ =>
          .next (ReplaceTagWithParagraph (ReplaceTagWithParagraph body (litS "[/table]") [])
            openTag [])

/-- ResolveTables (smart_table.go:30) driven by explicit fuel: the Go loop has
no intrinsic bound (claim C9 exhibits an input on which it never exits), so
the embedding iterates `resolveTablesStep` a given number of times. -/
def resolveTablesFuel (data : List (Str × GoVal)) : Nat → Str → Str
  | 0, body => body
  | fuel + 1, body =>
    match resolveTablesStep data body with
    | .done b => b
    | .next b => resolveTablesFuel data fuel b

/-- The rows strictly between the first and last classified row that are not
themselves classified (the spec's partition misses exactly these). -/
def interiorStaticCount (trs : List TplRow) : Nat :=
  match firstTplIdx trs, lastTplIdx trs with
  | some f, some l => (((trs.take (l + 1)).drop f).filter (fun t => !isFormRow t)).length
  | _, _ => 0

/-- A three-row table whose middle row is static: `{a}` / `s` / `{a}`. -/
def c1TableXML : Str :=
  litS "<w:tbl><w:tr>\x7ba\x7d</w:tr><w:tr>s</w:tr><w:tr>\x7ba\x7d</w:tr></w:tbl>"

/-- One grouped item supplying the local field name `a`. -/
def c1Items : List GoVal :=
  [GoVal.vmap [(litS "g", GoVal.vmap [(litS "a", GoVal.str (litS "v"))])]]

/-- The extracted rows of `c1TableXML`. -/
def c1Rows : List Str := extractTableRows (stripOuterTable c1TableXML)

/-- The classified rows of `c1TableXML` against `c1Items`. -/
def c1Trs : List TplRow := mkTplRows (collectLocalKeys c1Items) c1Rows

/-- Invariant carried by pass 1 over the processed item prefix: assignment
entries are `-2` (wait) or non-negative; a bound item with a groupKey is
recorded in the binding map; the wait zone is exactly the `-2` entries, in
strictly increasing order, and holds only items tryMatch scores non-positive;
binding values are non-negative. -/
def MatchInv (templates : List TplRow) (items : List NormItem) (st : MatchSt) : Prop :=
  st.assigned.length = items.length ∧
  (∀ i, i < items.length → st.assigned.getD i (-7) = -2 ∨ 0 ≤ st.assigned.getD i (-7)) ∧
  (∀ i, i < items.length → 0 ≤ st.assigned.getD i (-7) →
    (items.getD i default).groupKey ≠ [] →
    lookupS st.binding (items.getD i default).groupKey = some (st.assigned.getD i (-7))) ∧
  (∀ i, i ∈ st.wait ↔ (i < items.length ∧ st.assigned.getD i (-7) = -2)) ∧
  (∀ i, i ∈ st.wait → (tryMatch templates (items.getD i default)).2 ≤ 0) ∧
  st.wait.Pairwise (· < ·) ∧
  (∀ k v, lookupS st.binding k = some v → 0 ≤ v)

/-- The opening-marker paragraph `<w:p><w:r><w:t>[table/n]</w:t></w:r></w:p>`. -/
def openParaOf (n : Str) : Str :=
  litS "<w:p><w:r><w:t>[table/" ++ n ++ litS "]</w:t></w:r></w:p>"

/-- The closing-marker paragraph `<w:p><w:r><w:t>[/table]</w:t></w:r></w:p>`. -/
def closeParaStr : Str := litS "<w:p><w:r><w:t>[/table]</w:t></w:r></w:p>"

/-- The opening bracket marker `[table/n]`. -/
def openTagOf (n : Str) : Str := litS "[table/" ++ n ++ litS "]"

-- ============================================================================
-- Theorems
-- ============================================================================

/-- The inner fold of tryMatch keeps the first strict maximum: the result
either is the initial accumulator (no strict improvement) or records the score
and absolute index of the first element achieving the running maximum. -/
theorem tryMatchFold_spec (it : NormItem) :
    ∀ (l : List TplRow) (k : Nat) (bs bi : Int),
      bs ≤ ((List.enumFrom k l).foldl (fun (acc : Int × Int) (p : Nat × TplRow) =>
          let sc := score it p.2
          if sc > acc.1 then (sc, Int.ofNat p.1) else acc) (bs, bi)).1 ∧
      (∀ j, j < l.length → score it (l.getD j dfltTpl) ≤
        ((List.enumFrom k l).foldl (fun (acc : Int × Int) (p : Nat × TplRow) =>
          let sc := score it p.2
          if sc > acc.1 then (sc, Int.ofNat p.1) else acc) (bs, bi)).1) ∧
      (((List.enumFrom k l).foldl (fun (acc : Int × Int) (p : Nat × TplRow) =>
          let sc := score it p.2
          if sc > acc.1 then (sc, Int.ofNat p.1) else acc) (bs, bi)) = (bs, bi) ∨
        ∃ i, i < l.length ∧
          ((List.enumFrom k l).foldl (fun (acc : Int × Int) (p : Nat × TplRow) =>
            let sc := score it p.2
            if sc > acc.1 then (sc, Int.ofNat p.1) else acc) (bs, bi)).1
            = score it (l.getD i dfltTpl) ∧
          ((List.enumFrom k l).foldl (fun (acc : Int × Int) (p : Nat × TplRow) =>
            let sc := score it p.2
            if sc > acc.1 then (sc, Int.ofNat p.1) else acc) (bs, bi)).2
            = Int.ofNat (k + i) ∧
          bs < ((List.enumFrom k l).foldl (fun (acc : Int × Int) (p : Nat × TplRow) =>
            let sc := score it p.2
            if sc > acc.1 then (sc, Int.ofNat p.1) else acc) (bs, bi)).1 ∧
          ∀ j, j < i → score it (l.getD j dfltTpl) <
            ((List.enumFrom k l).foldl (fun (acc : Int × Int) (p : Nat × TplRow) =>
              let sc := score it p.2
              if sc > acc.1 then (sc, Int.ofNat p.1) else acc) (bs, bi)).1) := by
  intro l
  induction l with
  | nil => intro k bs bi; simp
  | cons t ts ih =>
    intro k bs bi
    simp only [List.enumFrom, List.foldl_cons]
    by_cases hgt : score it t > bs
    · simp only [hgt, if_pos]
      obtain ⟨h1, h2, h3⟩ := ih (k + 1) (score it t) (Int.ofNat k)
      refine ⟨le_trans (le_of_lt hgt) h1, ?_, ?_⟩
      · intro j hj
        cases j with
        | zero => simpa using h1
        | succ j' =>
          simp only [List.getD_cons_succ]
          exact h2 j' (by simpa using hj)
      · rcases h3 with heq | ⟨i, hi, hsc, hidx, hlt, hblow⟩
        · right
          refine ⟨0, by simp, ?_, ?_, ?_, ?_⟩
          · rw [heq]; simp
          · rw [heq]; simp
          · rw [heq]; exact hgt
          · intro j hj; omega
        · right
          refine ⟨i + 1, by simpa using hi, by simpa using hsc, ?_, lt_trans hgt hlt, ?_⟩
          · rw [hidx]; congr 1; omega
          · intro j hj
            cases j with
            | zero => simpa using hlt
            | succ j' => simpa using hblow j' (by omega)
    · simp only [hgt, if_neg, if_false]
      obtain ⟨h1, h2, h3⟩ := ih (k + 1) bs bi
      refine ⟨h1, ?_, ?_⟩
      · intro j hj
        cases j with
        | zero => simpa using le_trans (not_lt.mp hgt) h1
        | succ j' => exact h2 j' (by simpa using hj)
      · rcases h3 with heq | ⟨i, hi, hsc, hidx, hlt, hblow⟩
        · left; exact heq
        · right
          refine ⟨i + 1, by simpa using hi, by simpa using hsc, ?_, hlt, ?_⟩
          · rw [hidx]; congr 1; omega
          · intro j hj
            cases j with
            | zero => simpa using lt_of_le_of_lt (not_lt.mp hgt) hlt
            | succ j' => simpa using hblow j' (by omega)

/-- C10: when two or more forms receive the same best positive score for an
item, tryMatch binds the item to the form appearing earliest in document
order: a positive result `(idx, sc)` names an in-range index whose score is
`sc`, every earlier form scores strictly less, and no form scores more — so
matching is a deterministic function of the template list and the item. -/
theorem tryMatch_first_max (templates : List TplRow) (it : NormItem) (idx sc : Int)
    (h : tryMatch templates it = (idx, sc)) (hpos : 0 < sc) :
    ∃ i : Nat, idx = Int.ofNat i ∧ i < templates.length ∧
      score it (templates.getD i dfltTpl) = sc ∧
      (∀ j, j < i → score it (templates.getD j dfltTpl) < sc) ∧
      (∀ j, j < templates.length → score it (templates.getD j dfltTpl) ≤ sc) := by
  unfold tryMatch at h
  obtain ⟨h1, h2, h3⟩ := tryMatchFold_spec it templates 0 (-1) (-1)
  set r := (List.enumFrom 0 templates).foldl (fun (acc : Int × Int) (p : Nat × TplRow) =>
    let sc := score it p.2
    if sc > acc.1 then (sc, Int.ofNat p.1) else acc) (-1, -1) with hr
  simp only [List.enum] at h
  rw [← hr] at h
  by_cases hle : r.1 ≤ 0
  · simp only [hle, if_pos] at h
    cases h
    omega
  · simp only [hle, if_neg, if_false] at h
    injection h with hA hB
    rcases h3 with heq | ⟨i, hi, hsc, hidx, _, hblow⟩
    · rw [heq] at hle; simp at hle
    · refine ⟨i, ?_, hi, ?_, ?_, ?_⟩
      · rw [← hA, hidx]; simp
      · rw [← hsc, hB]
      · intro j hj; rw [← hB]; exact hblow j hj
      · intro j hj; rw [← hB]; exact h2 j hj

/-- C10 witness: two identical positional forms, a two-element slice item;
tryMatch picks index 0 with score 1002 and the spec instantiates. -/
theorem tryMatch_first_max_witness :
    ∃ i : Nat, (0 : Int) = Int.ofNat i ∧
      i < [(⟨0, litS "r1", ⟨[], 2⟩, false, true, false⟩ : TplRow),
           ⟨1, litS "r2", ⟨[], 2⟩, false, true, false⟩].length ∧
      score ⟨[], .sliceK, [], [GoVal.str (litS "x"), GoVal.str (litS "y")]⟩
        ([(⟨0, litS "r1", ⟨[], 2⟩, false, true, false⟩ : TplRow),
          ⟨1, litS "r2", ⟨[], 2⟩, false, true, false⟩].getD i dfltTpl) = 1002 ∧
      (∀ j, j < i →
        score ⟨[], .sliceK, [], [GoVal.str (litS "x"), GoVal.str (litS "y")]⟩
          ([(⟨0, litS "r1", ⟨[], 2⟩, false, true, false⟩ : TplRow),
            ⟨1, litS "r2", ⟨[], 2⟩, false, true, false⟩].getD j dfltTpl) < 1002) ∧
      (∀ j, j < [(⟨0, litS "r1", ⟨[], 2⟩, false, true, false⟩ : TplRow),
           ⟨1, litS "r2", ⟨[], 2⟩, false, true, false⟩].length →
        score ⟨[], .sliceK, [], [GoVal.str (litS "x"), GoVal.str (litS "y")]⟩
          ([(⟨0, litS "r1", ⟨[], 2⟩, false, true, false⟩ : TplRow),
            ⟨1, litS "r2", ⟨[], 2⟩, false, true, false⟩].getD j dfltTpl) ≤ 1002) :=
  tryMatch_first_max _ _ 0 1002 (by decide) (by decide)

/-- C9: the claimed loop progress fails — on the body `[table/x] [/table]`
(whose markers sit in no `<w:p>` paragraph) one full iteration of the
ResolveTables loop takes a `continue` path and leaves the body unchanged, so
the loop re-enters with identical state forever: ResolveTables does not
terminate on this input, for any data map (the iteration never consults it). -/
theorem resolveTables_no_progress (data : List (Str × GoVal)) :
    resolveTablesStep data (litS "[table/x] [/table]") =
      StepRes.next (litS "[table/x] [/table]") := by
  rfl

/-- Nodes surviving `eatRun` come from the original node list. -/
theorem mem_of_mem_eatRun {side : TrimSide} {l : List Str} {a : Str}
    (h : a ∈ eatRun side l) : a ∈ l :=
  (List.dropWhile_suffix (canEatNode side)).subset h

/-- A node containing a newline classifies as `wsHasNewline` or `wsNone`. -/
theorem classifyWS_of_newline (s : Str) (hs : '\n' ∈ s) :
    classifyWS s = .wsHasNewline ∨ classifyWS s = .wsNone := by
  by_cases h2 : s = litS "\n"
  · left; rw [h2]; decide
  by_cases h1 : s = litS "\t"
  · exfalso; rw [h1] at hs; simp [litS] at hs
  by_cases h3 : s.all (fun r => decide (r = ' ' ∨ r = '\t'))
  · exfalso
    have := List.all_eq_true.mp h3 '\n' hs
    simp at this
  by_cases h4 : s.all (fun r => decide (r = ' ' ∨ r = '\t' ∨ r = '\n'))
  · left
    have hc : s.contains '\n' = true := List.elem_eq_true_of_mem hs
    unfold classifyWS
    rw [if_neg h1, if_neg h2, if_neg h3, if_pos h4, if_pos hc]
  · right
    unfold classifyWS
    rw [if_neg h1, if_neg h2, if_neg h3, if_neg h4]

/-- The walk ignores marker-free nodes: they are emitted unchanged. -/
theorem trimWalkF_no_marker : ∀ (rest done : List Str) (fuel : Nat),
    (∀ t ∈ rest, hasTrimMarkers t = false) →
    trimWalkF fuel done rest = done.reverse ++ rest := by
  intro rest
  induction rest with
  | nil =>
    intro done fuel _
    cases fuel <;> simp [trimWalkF]
  | cons t ts ih =>
    intro done fuel h
    cases fuel with
    | zero => simp [trimWalkF]
    | succ f =>
      have ht : hasTrimMarkers t = false := h t (by simp)
      simp only [trimWalkF, ht, Bool.false_eq_true, if_false]
      rw [ih (t :: done) f (fun u hu => h u (by simp [hu]))]
      simp

/-- The walk around a single decorated node: the left mask eats backwards into
the already-emitted prefix, the right mask eats forwards, each stopping at the
first non-eatable node; the marker node itself is stripped of decorations. -/
theorem trimWalkF_around : ∀ (pre done : List Str) (t : Str) (post : List Str) (fuel : Nat),
    (∀ u ∈ pre, hasTrimMarkers u = false) → (∀ u ∈ post, hasTrimMarkers u = false) →
    hasTrimMarkers t = true → pre.length < fuel →
    trimWalkF fuel done (pre ++ t :: post) =
      (eatRun (computeMasks t).1 (pre.reverse ++ done)).reverse ++
        stripMarkersInPlace t :: eatRun (computeMasks t).2 post := by
  intro pre
  induction pre with
  | nil =>
    intro done t post fuel _ hpost ht hfuel
    cases fuel with
    | zero => omega
    | succ f =>
      simp only [List.nil_append, trimWalkF, ht, if_pos]
      rw [trimWalkF_no_marker (eatRun (computeMasks t).2 post)
        (stripMarkersInPlace t :: eatRun (computeMasks t).1 done) f
        (fun u hu => hpost u (mem_of_mem_eatRun hu))]
      simp
  | cons u pre' ih =>
    intro done t post fuel hpre hpost ht hfuel
    cases fuel with
    | zero => simp at hfuel
    | succ f =>
      have hu : hasTrimMarkers u = false := hpre u (by simp)
      simp only [List.cons_append, trimWalkF, hu, Bool.false_eq_true, if_false, List.append_eq]
      rw [ih (u :: done) t post f (fun v hv => hpre v (by simp [hv])) hpost ht
        (by simp at hfuel ⊢; omega)]
      simp

/-- C7: in ProcessTrimTags a weak (`-`) side removes adjacent nodes consisting
only of spaces and tabs and never a node containing a newline — a line-break
node stops the walk so a space node beyond it is also kept — while a strong
(`~`) side removes spaces/tabs nodes and line-break nodes alike; the two sides
of a marker are trimmed independently under their own masks. -/
theorem trim_weak_strong_sides :
    (∀ s : Str, '\n' ∈ s → canEatNode .trimST s = false) ∧
    (∀ (s : Str) (rest : List Str), classifyWS s = .wsSpacesTabs →
      eatRun .trimST (s :: rest) = eatRun .trimST rest) ∧
    (∀ (s : Str) (rest : List Str), '\n' ∈ s →
      eatRun .trimST (s :: rest) = s :: rest) ∧
    (∀ (s : Str) (rest : List Str),
      classifyWS s = .wsSpacesTabs ∨ classifyWS s = .wsHasNewline →
      eatRun .trimSTN (s :: rest) = eatRun .trimSTN rest) ∧
    (∀ (pre : List Str) (t : Str) (post : List Str),
      (∀ u ∈ pre, hasTrimMarkers u = false) → (∀ u ∈ post, hasTrimMarkers u = false) →
      hasTrimMarkers t = true →
      ProcessTrimTagsRun (pre ++ t :: post) =
        (eatRun (computeMasks t).1 pre.reverse).reverse ++
          stripMarkersInPlace t :: eatRun (computeMasks t).2 post) := by
  have hweak : ∀ s : Str, '\n' ∈ s → canEatNode .trimST s = false := by
    intro s hs
    rcases classifyWS_of_newline s hs with h | h <;>
      simp [canEatNode, h, canEat]
  refine ⟨hweak, ?_, ?_, ?_, ?_⟩
  · intro s rest h
    simp [eatRun, List.dropWhile_cons, canEatNode, h, canEat]
  · intro s rest h
    simp [eatRun, List.dropWhile_cons, hweak s h]
  · intro s rest h
    rcases h with h | h <;> simp [eatRun, List.dropWhile_cons, canEatNode, h, canEat]
  · intro pre t post hpre hpost ht
    unfold ProcessTrimTagsRun
    rw [trimWalkF_around pre [] t post ((pre ++ t :: post).length + 1) hpre hpost ht
      (by simp; omega)]
    simp

/-- C7 witness: `{fio-}` followed by a line-break node and a space node — the
weak right side removes neither (the break stops the walk), the marker is
stripped to `{fio}`, and the marker-free prefix is untouched. -/
theorem trim_weak_strong_sides_witness :
    ProcessTrimTagsRun ([litS "x"] ++ litS "\x7bfio-\x7d" :: [litS "\n", litS " "]) =
      (eatRun (computeMasks (litS "\x7bfio-\x7d")).1 [litS "x"].reverse).reverse ++
        stripMarkersInPlace (litS "\x7bfio-\x7d") ::
          eatRun (computeMasks (litS "\x7bfio-\x7d")).2 [litS "\n", litS " "] :=
  trim_weak_strong_sides.2.2.2.2 [litS "x"] (litS "\x7bfio-\x7d") [litS "\n", litS " "]
    (by decide) (by decide) (by decide)

/-- Outside any marker, RepairTags copies brace/bracket-free text verbatim
(character by character, one fuel unit each). -/
theorem repairF_outside_id : ∀ (s : Str) (fuel : Nat), s.length < fuel →
    (∀ c ∈ s, c ≠ lbrace ∧ c ≠ '[') → repairF fuel false false s = s := by
  intro s
  induction s with
  | nil => intro fuel hf _; cases fuel with
    | zero => omega
    | succ f => rfl
  | cons c rest ih =>
    intro fuel hf h
    cases fuel with
    | zero => simp at hf
    | succ f =>
      obtain ⟨hc1, hc2⟩ := h c (by simp)
      simp only [repairF]
      rw [if_pos (by simp), if_neg hc1, if_neg hc2]
      rw [ih f (by simp at hf ⊢; omega) (fun d hd => h d (by simp [hd]))]

/-- RepairTags consumes exactly one fuel unit per character of a marker-free
prefix, leaving the remainder to be processed independently. -/
theorem repairF_pre : ∀ (pre : Str) (fuel : Nat) (rest : Str),
    (∀ c ∈ pre, c ≠ lbrace ∧ c ≠ '[') →
    repairF (pre.length + fuel) false false (pre ++ rest) =
      pre ++ repairF fuel false false rest := by
  intro pre
  induction pre with
  | nil => intro fuel rest _; simp
  | cons c pre' ih =>
    intro fuel rest h
    obtain ⟨hc1, hc2⟩ := h c (by simp)
    have : (c :: pre').length + fuel = (pre'.length + fuel) + 1 := by simp; omega
    rw [this]
    simp only [repairF, List.cons_append]
    rw [if_pos (by simp), if_neg hc1, if_neg hc2]
    rw [ih fuel rest (fun d hd => h d (by simp [hd]))]

/-- A character other than `<` never starts a formatting-boundary token. -/
theorem repairTok_cons_ne (c : Char) (rest : Str) (hc : c ≠ '<') :
    repairTok (c :: rest) = false := by
  have key : ∀ (xs : List Char), List.isPrefixOf ('<' :: xs) (c :: rest) = false := by
    intro xs
    simp only [List.isPrefixOf, Bool.and_eq_false_iff]
    left
    simp [hc.symm]
  simp [repairTok, hasPre, litS, key]

/-- Inside a curly marker whose remaining body avoids braces, brackets and
`<`, RepairTags copies the body and the closing brace, then returns to
outside mode (one fuel unit per character). -/
theorem repairF_inside : ∀ (b : Str) (fuel : Nat) (rest : Str),
    (∀ c ∈ b, c ≠ lbrace ∧ c ≠ rbrace ∧ c ≠ '[' ∧ c ≠ ']' ∧ c ≠ '<') →
    repairF (b.length + 1 + fuel) true false (b ++ rbrace :: rest) =
      b ++ rbrace :: repairF fuel false false rest := by
  intro b
  induction b with
  | nil =>
    intro fuel rest _
    have h1 : (([] : Str)).length + 1 + fuel = fuel + 1 := by simp; omega
    rw [h1]
    simp only [List.nil_append, repairF]
    rw [if_neg (by simp)]
    rw [repairTok_cons_ne rbrace rest (by decide)]
    simp
  | cons c b' ih =>
    intro fuel rest h
    obtain ⟨hc1, hc2, hc3, hc4, hc5⟩ := h c (by simp)
    have hl : (c :: b').length + 1 + fuel = (b'.length + 1 + fuel) + 1 := by simp; omega
    rw [hl]
    simp only [repairF, List.cons_append]
    rw [if_neg (by simp)]
    rw [repairTok_cons_ne c _ hc5]
    simp only [Bool.false_eq_true, if_false]
    rw [ih fuel rest (fun d hd => h d (by simp [hd]))]
    simp [hc2, hc4]

/-- A complete curly marker with a clean body passes through RepairTags
unchanged, consuming one fuel unit per character. -/
theorem repairF_marker : ∀ (b : Str) (fuel : Nat) (rest : Str),
    (∀ c ∈ b, c ≠ lbrace ∧ c ≠ rbrace ∧ c ≠ '[' ∧ c ≠ ']' ∧ c ≠ '<') →
    repairF ((lbrace :: b ++ [rbrace]).length + fuel) false false
        ((lbrace :: b ++ [rbrace]) ++ rest) =
      (lbrace :: b ++ [rbrace]) ++ repairF fuel false false rest := by
  intro b fuel rest h
  have hlen : (lbrace :: b ++ [rbrace]).length + fuel = (b.length + 1 + fuel) + 1 := by
    simp; omega
  rw [hlen]
  simp only [repairF, List.cons_append]
  rw [if_pos (by simp)]
  rw [if_pos (by trivial)]
  have hassoc : b ++ [rbrace] ++ rest = b ++ rbrace :: rest := by simp
  rw [hassoc, repairF_inside b fuel rest h]
  simp

/-- C5 counterexample: `a`+backtick+`b` contains no brace or bracket at all —
hence no marker under any reading — yet Transform∘Repair deletes the backtick
(TransformTemplate buffers it into the tag token even outside a tag and the
token is discarded), so the round trip is not the identity. -/
theorem transform_repair_not_id_backtick :
    (lbrace ∉ litS "a`b" ∧ rbrace ∉ litS "a`b" ∧ '[' ∉ litS "a`b" ∧ ']' ∉ litS "a`b") ∧
    TransformTemplate (RepairTags (litS "a`b")) ≠ litS "a`b" := by
  decide

/-- TransformTemplate's fold copies brace-and-backtick-free text to the output
untouched, never entering tag mode. -/
theorem transformStep_foldl_id : ∀ (s out token : Str) (q : Bool),
    (∀ c ∈ s, c ≠ lbrace ∧ c ≠ '`') →
    s.foldl transformStep (out, token, false, q) = (out ++ s, token, false, q) := by
  intro s
  induction s with
  | nil => intro out token q _; simp
  | cons c rest ih =>
    intro out token q h
    obtain ⟨hc1, hc2⟩ := h c (by simp)
    simp only [List.foldl_cons]
    have hstep : transformStep (out, token, false, q) c = (out ++ [c], token, false, q) := by
      simp only [transformStep]
      rw [if_neg hc1, if_neg hc2]
      by_cases hc3 : c = rbrace
      · rw [if_pos hc3]
        simp [hc3]
      · rw [if_neg hc3]
        simp
    rw [hstep, ih (out ++ [c]) token q (fun d hd => h d (by simp [hd]))]
    simp

/-- C5 (amended): Transform∘Repair is the identity on every input free of
braces, brackets and backticks; a no-marker document containing a backtick is
not restored (see the counterexample). -/
theorem transform_repair_id (s : Str)
    (h : ∀ c ∈ s, c ≠ lbrace ∧ c ≠ '[' ∧ c ≠ '`') :
    TransformTemplate (RepairTags s) = s := by
  have hrep : RepairTags s = s := by
    unfold RepairTags
    exact repairF_outside_id s (s.length + 1) (by omega)
      (fun c hc => ⟨(h c hc).1, (h c hc).2.1⟩)
  rw [hrep]
  unfold TransformTemplate
  rw [transformStep_foldl_id s [] [] false (fun c hc => ⟨(h c hc).1, (h c hc).2.2⟩)]
  simp

/-- C5 witness: a plain sentence with no marker machinery round-trips. -/
theorem transform_repair_id_witness :
    TransformTemplate (RepairTags (litS "plain text, no markers.")) =
      litS "plain text, no markers." :=
  transform_repair_id (litS "plain text, no markers.") (by decide)

/-- C6 counterexample: in `a{b<w:t>c` there is no complete marker at all (no
closing brace or bracket exists), so the whole input is non-marker content;
yet RepairTags stays in marker mode after the unterminated `{` and deletes the
`<w:t>` token instead of flushing the remainder verbatim. -/
theorem repair_deletes_after_unterminated :
    (rbrace ∉ litS "a\x7bb<w:t>c" ∧ ']' ∉ litS "a\x7bb<w:t>c") ∧
    RepairTags (litS "a\x7bb<w:t>c") = litS "a\x7bbc" ∧
    RepairTags (litS "a\x7bb<w:t>c") ≠ litS "a\x7bb<w:t>c" := by
  decide

/-- C6 (amended): RepairTags never returns an error; text before any marker
opener passes through verbatim with the remainder processed independently;
and two complete, independent, non-nested markers whose bodies are free of
brace, bracket and `<` characters are reproduced exactly — never merged.
(After an unterminated marker the scanner stays in marker mode and strips
formatting-boundary tokens, per the counterexample.) -/
theorem repair_preserves_and_never_merges :
    (∀ pre rest : Str, (∀ c ∈ pre, c ≠ lbrace ∧ c ≠ '[') →
      RepairTags (pre ++ rest) = pre ++ RepairTags rest) ∧
    (∀ pre b1 mid b2 post : Str,
      (∀ c ∈ pre, c ≠ lbrace ∧ c ≠ '[') →
      (∀ c ∈ mid, c ≠ lbrace ∧ c ≠ '[') →
      (∀ c ∈ post, c ≠ lbrace ∧ c ≠ '[') →
      (∀ c ∈ b1, c ≠ lbrace ∧ c ≠ rbrace ∧ c ≠ '[' ∧ c ≠ ']' ∧ c ≠ '<') →
      (∀ c ∈ b2, c ≠ lbrace ∧ c ≠ rbrace ∧ c ≠ '[' ∧ c ≠ ']' ∧ c ≠ '<') →
      RepairTags (pre ++ (lbrace :: b1 ++ [rbrace]) ++ mid ++
          (lbrace :: b2 ++ [rbrace]) ++ post) =
        pre ++ (lbrace :: b1 ++ [rbrace]) ++ mid ++ (lbrace :: b2 ++ [rbrace]) ++ post) ∧
    (∀ s : Str, RepairTagsErr s = none) := by
  have hpre : ∀ pre rest : Str, (∀ c ∈ pre, c ≠ lbrace ∧ c ≠ '[') →
      RepairTags (pre ++ rest) = pre ++ RepairTags rest := by
    intro pre rest h
    unfold RepairTags
    have hlen : (pre ++ rest).length + 1 = pre.length + (rest.length + 1) := by
      simp; omega
    rw [hlen, repairF_pre pre (rest.length + 1) rest h]
  refine ⟨hpre, ?_, fun _ => rfl⟩
  intro pre b1 mid b2 post hp hm hq hb1 hb2
  unfold RepairTags
  have e1 : (pre ++ (lbrace :: b1 ++ [rbrace]) ++ mid ++ (lbrace :: b2 ++ [rbrace]) ++ post)
      = pre ++ ((lbrace :: b1 ++ [rbrace]) ++ (mid ++ ((lbrace :: b2 ++ [rbrace]) ++ post))) := by
    simp
  rw [e1]
  have hlen : (pre ++ ((lbrace :: b1 ++ [rbrace]) ++ (mid ++ ((lbrace :: b2 ++ [rbrace]) ++ post)))).length + 1 =
      pre.length + ((lbrace :: b1 ++ [rbrace]).length +
        (mid.length + ((lbrace :: b2 ++ [rbrace]).length + (post.length + 1)))) := by
    simp; omega
  rw [hlen]
  rw [repairF_pre pre _ _ hp]
  rw [repairF_marker b1 _ _ hb1]
  rw [repairF_pre mid _ _ hm]
  rw [repairF_marker b2 _ _ hb2]
  rw [repairF_outside_id post (post.length + 1) (by omega) hq]

/-- C6 witness: `text {fio} and {dep} tail` — both markers and all glue
survive byte-for-byte and the error component is nil. -/
theorem repair_preserves_witness :
    RepairTags (litS "text " ++ (lbrace :: litS "fio" ++ [rbrace]) ++ litS " and " ++
        (lbrace :: litS "dep" ++ [rbrace]) ++ litS " tail") =
      litS "text " ++ (lbrace :: litS "fio" ++ [rbrace]) ++ litS " and " ++
        (lbrace :: litS "dep" ++ [rbrace]) ++ litS " tail" :=
  repair_preserves_and_never_merges.2.1 (litS "text ") (litS "fio") (litS " and ")
    (litS "dep") (litS " tail") (by decide) (by decide) (by decide) (by decide) (by decide)

/-- Spec of `List.findIdx?` (with its start accumulator): a hit is in range,
satisfies the predicate, and is the first such index. -/
theorem findIdx?_spec : ∀ (l : List TplRow) (i n : Nat),
    List.findIdx? isFormRow l i = some n →
    i ≤ n ∧ n - i < l.length ∧ isFormRow (l.getD (n - i) dfltTpl) = true ∧
      ∀ j, j < n - i → isFormRow (l.getD j dfltTpl) = false := by
  intro l
  induction l with
  | nil => intro i n h; simp [List.findIdx?] at h
  | cons t ts ih =>
    intro i n h
    rw [List.findIdx?_cons] at h
    by_cases hp : isFormRow t
    · rw [if_pos hp] at h
      cases h
      exact ⟨le_refl _, by simp, by simpa using hp, fun j hj => by omega⟩
    · rw [if_neg hp] at h
      obtain ⟨h1, h2, h3, h4⟩ := ih (i + 1) n h
      refine ⟨by omega, by simp; omega, ?_, ?_⟩
      · have he : n - i = (n - (i + 1)) + 1 := by omega
        rw [he]; simpa using h3
      · intro j hj
        cases j with
        | zero => simpa using hp
        | succ j' => simpa using h4 j' (by omega)

/-- A member satisfying the predicate guarantees `findIdx?` hits. -/
theorem findIdx?_isSome_of_mem : ∀ (l : List TplRow) (i : Nat) (t : TplRow),
    t ∈ l → isFormRow t = true → ∃ n, List.findIdx? isFormRow l i = some n := by
  intro l
  induction l with
  | nil => intro i t h; simp at h
  | cons u us ih =>
    intro i t ht hf
    rw [List.findIdx?_cons]
    by_cases hp : isFormRow u
    · exact ⟨i, by rw [if_pos hp]⟩
    · rcases List.mem_cons.mp ht with rfl | hmem
      · exact absurd hf (by simpa using hp)
      · obtain ⟨n, hn⟩ := ih (i + 1) t hmem hf
        exact ⟨n, by rw [if_neg hp, hn]⟩

/-- Spec of `lastFormIdxAux`: a hit (relative to the start offset) is in
range, satisfies the predicate, and is the last such index. -/
theorem lastFormIdxAux_spec : ∀ (l : List TplRow) (i j : Nat),
    lastFormIdxAux l i = some j →
    i ≤ j ∧ j - i < l.length ∧ isFormRow (l.getD (j - i) dfltTpl) = true ∧
      ∀ m, j - i < m → m < l.length → isFormRow (l.getD m dfltTpl) = false := by
  intro l
  induction l with
  | nil => intro i j h; simp [lastFormIdxAux] at h
  | cons t ts ih =>
    intro i j h
    unfold lastFormIdxAux at h
    cases he : lastFormIdxAux ts (i + 1) with
    | some k =>
      rw [he] at h
      cases h
      obtain ⟨h1, h2, h3, h4⟩ := ih (i + 1) j he
      have hji : i + 1 ≤ j := h1
      refine ⟨by omega, by simp; omega, ?_, ?_⟩
      · have : j - i = (j - (i + 1)) + 1 := by omega
        rw [this]; simpa using h3
      · intro m hm hml
        match m, hm with
        | m' + 1, hm =>
          have : j - (i + 1) < m' := by omega
          simpa using h4 m' this (by simpa using hml)
    | none =>
      rw [he] at h
      by_cases hp : isFormRow t
      · rw [if_pos hp] at h
        cases h
        refine ⟨le_refl _, by simp, by simpa using hp, ?_⟩
        intro m hm hml
        match m, hm with
        | m' + 1, _ =>
          -- everything in ts is non-form since lastFormIdxAux ts _ = none
          have hnone : ∀ (us : List TplRow) (k : Nat), lastFormIdxAux us k = none →
              ∀ q, q < us.length → isFormRow (us.getD q dfltTpl) = false := by
            intro us
            induction us with
            | nil => intro k _ q hq; simp at hq
            | cons v vs ihv =>
              intro k hk q hq
              unfold lastFormIdxAux at hk
              cases hev : lastFormIdxAux vs (k + 1) with
              | some w => rw [hev] at hk; simp at hk
              | none =>
                rw [hev] at hk
                by_cases hv : isFormRow v
                · rw [if_pos hv] at hk; simp at hk
                · rw [if_neg hv] at hk
                  cases q with
                  | zero => simpa using hv
                  | succ q' => simpa using ihv (k + 1) hev q' (by simpa using hq)
          simpa using hnone ts (i + 1) he m' (by simpa using hml)
      · rw [if_neg hp] at h; simp at h

/-- If some row is classified, `lastFormIdxAux` hits. -/
theorem lastFormIdxAux_isSome_of_mem : ∀ (l : List TplRow) (i : Nat) (t : TplRow),
    t ∈ l → isFormRow t = true → ∃ j, lastFormIdxAux l i = some j := by
  intro l
  induction l with
  | nil => intro i t h; simp at h
  | cons u us ih =>
    intro i t ht hf
    unfold lastFormIdxAux
    cases he : lastFormIdxAux us (i + 1) with
    | some k => exact ⟨k, rfl⟩
    | none =>
      rcases List.mem_cons.mp ht with rfl | hmem
      · exact ⟨i, by rw [if_pos hf]⟩
      · obtain ⟨j, hj⟩ := ih (i + 1) t hmem hf
        rw [hj] at he; cases he

/-- Members of a `take` prefix sit at indices below the cut. -/
theorem mem_take_idx : ∀ (l : List TplRow) (n : Nat) (a : TplRow),
    a ∈ l.take n → ∃ i, i < n ∧ i < l.length ∧ l.getD i dfltTpl = a := by
  intro l
  induction l with
  | nil => intro n a h; simp at h
  | cons x xs ih =>
    intro n a h
    cases n with
    | zero => simp at h
    | succ n' =>
      rcases List.mem_cons.mp (by simpa using h) with rfl | hmem
      · exact ⟨0, by omega, by simp, rfl⟩
      · obtain ⟨i, h1, h2, h3⟩ := ih n' a hmem
        exact ⟨i + 1, by omega, by simp; omega, by simpa using h3⟩

/-- Members of a `drop` suffix sit at indices at or beyond the cut. -/
theorem mem_drop_idx : ∀ (l : List TplRow) (n : Nat) (a : TplRow),
    a ∈ l.drop n → ∃ i, n ≤ i ∧ i < l.length ∧ l.getD i dfltTpl = a := by
  intro l
  induction l with
  | nil => intro n a h; simp at h
  | cons x xs ih =>
    intro n a h
    cases n with
    | zero =>
      rcases List.mem_cons.mp (by simpa using h) with rfl | hmem
      · exact ⟨0, by omega, by simp, rfl⟩
      · obtain ⟨i, h1, h2, h3⟩ := ih 0 a hmem
        exact ⟨i + 1, by omega, by simp; omega, by simpa using h3⟩
    | succ n' =>
      obtain ⟨i, h1, h2, h3⟩ := ih n' a (by simpa using h)
      exact ⟨i + 1, by omega, by simp; omega, by simpa using h3⟩

/-- Filtering a list by a predicate and its negation partitions its length. -/
theorem length_filter_add_neg : ∀ (l : List TplRow) (p : TplRow → Bool),
    (l.filter p).length + (l.filter (fun x => !p x)).length = l.length := by
  intro l p
  induction l with
  | nil => simp
  | cons x xs ih =>
    by_cases hp : p x <;> simp [List.filter_cons, hp, Nat.succ_eq_add_one] <;> omega

/-- The classified-row list has one entry per table row. -/
theorem mkTplRows_length (keys : List Str) (rows : List Str) :
    (mkTplRows keys rows).length = rows.length := by
  simp [mkTplRows]

/-- C1 counterexample: on the table `{a}` / `s` / `{a}` with an item supplying
field `a`, the static middle row is in neither Header, Forms, nor Footer, so
`len(Header)+len(Forms)+len(Footer) = 2 ≠ 3 = len(originalRows)`. -/
theorem header_forms_footer_not_partition :
    (headerRowsOf c1Trs c1Rows).length + (templatesOf c1Trs).length +
      (footerRowsOf c1Trs c1Rows).length ≠ c1Rows.length := by
  decide

/-- C1 (amended): for every table with at least one classified row, Header,
Forms, Footer and the static rows strictly between the first and last
classified row together partition the original rows:
`len(Header)+len(Forms)+len(interior statics)+len(Footer) = len(originalRows)`. -/
theorem header_forms_footer_partition (rows keys : List Str)
    (hcl : ∃ t ∈ mkTplRows keys rows, isFormRow t = true) :
    (headerRowsOf (mkTplRows keys rows) rows).length +
      (templatesOf (mkTplRows keys rows)).length +
      interiorStaticCount (mkTplRows keys rows) +
      (footerRowsOf (mkTplRows keys rows) rows).length = rows.length := by
  obtain ⟨t, htmem, htf⟩ := hcl
  set trs := mkTplRows keys rows with htrs
  obtain ⟨f, hf⟩ := findIdx?_isSome_of_mem trs 0 t htmem htf
  obtain ⟨l, hl⟩ := lastFormIdxAux_isSome_of_mem trs 0 t htmem htf
  obtain ⟨_, hf1, hf2, hf3⟩ := findIdx?_spec trs 0 f hf
  obtain ⟨_, hl1, hl2, hl3⟩ := lastFormIdxAux_spec trs 0 l hl
  simp only [Nat.sub_zero] at hf1 hf2 hf3 hl1 hl2 hl3
  have hlen : trs.length = rows.length := mkTplRows_length keys rows
  have hfl : f ≤ l := by
    by_contra hcon
    push_neg at hcon
    have := hl3 f hcon hf1
    rw [this] at hf2; cases hf2
  -- header and footer lengths
  have hhead : (headerRowsOf trs rows).length = f := by
    unfold headerRowsOf firstTplIdx
    rw [hf]
    simp [List.length_take]
    omega
  have hfoot : (footerRowsOf trs rows).length = rows.length - (l + 1) := by
    unfold footerRowsOf lastTplIdx
    rw [hl]
    simp [List.length_drop]
  -- forms live only in the window
  have hsplit1 : trs = trs.take (l + 1) ++ trs.drop (l + 1) :=
    (List.take_append_drop (l + 1) trs).symm
  have hdrop_nil : (trs.drop (l + 1)).filter isFormRow = [] := by
    rw [List.filter_eq_nil_iff]
    intro a ha
    obtain ⟨i, h1, h2, h3⟩ := mem_drop_idx trs (l + 1) a ha
    rw [← h3]
    exact fun hcon => by rw [hl3 i (by omega) h2] at hcon; cases hcon
  have hsplit2 : trs.take (l + 1) = trs.take f ++ (trs.take (l + 1)).drop f := by
    have h0 := List.take_append_drop f (trs.take (l + 1))
    rw [List.take_take, min_eq_left (by omega)] at h0
    exact h0.symm
  have htake_nil : (trs.take f).filter isFormRow = [] := by
    rw [List.filter_eq_nil_iff]
    intro a ha
    obtain ⟨i, h1, h2, h3⟩ := mem_take_idx trs f a ha
    rw [← h3]
    exact fun hcon => by rw [hf3 i h1] at hcon; cases hcon
  have hforms : (templatesOf trs).length = (((trs.take (l + 1)).drop f).filter isFormRow).length := by
    unfold templatesOf
    conv_lhs => rw [hsplit1]
    rw [List.filter_append, hdrop_nil, List.append_nil]
    conv_lhs => rw [hsplit2]
    rw [List.filter_append, htake_nil, List.nil_append]
  have hint : interiorStaticCount trs =
      (((trs.take (l + 1)).drop f).filter (fun x => !isFormRow x)).length := by
    unfold interiorStaticCount firstTplIdx lastTplIdx
    rw [hf, hl]
  have hwin : ((trs.take (l + 1)).drop f).length = (l + 1) - f := by
    simp [List.length_drop, List.length_take]
    omega
  have hpart := length_filter_add_neg ((trs.take (l + 1)).drop f) isFormRow
  rw [hhead, hfoot, hforms, hint]
  omega

/-- C1 witness: the amended partition instantiated on the `{a}`/`s`/`{a}`
table — 0 header + 2 forms + 1 interior static + 0 footer = 3 rows. -/
theorem header_forms_footer_partition_witness :
    (headerRowsOf (mkTplRows (collectLocalKeys c1Items) c1Rows) c1Rows).length +
      (templatesOf (mkTplRows (collectLocalKeys c1Items) c1Rows)).length +
      interiorStaticCount (mkTplRows (collectLocalKeys c1Items) c1Rows) +
      (footerRowsOf (mkTplRows (collectLocalKeys c1Items) c1Rows) c1Rows).length
      = c1Rows.length :=
  header_forms_footer_partition c1Rows (collectLocalKeys c1Items)
    (by refine ⟨(mkTplRows (collectLocalKeys c1Items) c1Rows).getD 0 dfltTpl, ?_, ?_⟩ <;> decide)

/-- Trimming is the identity on a wrapped table (it starts with `<` and ends
with `>`). -/
theorem trimSpaceGo_angle (mid : Str) :
    trimSpaceGo (TableOpeningTag ++ mid ++ TableEndingTag) =
      TableOpeningTag ++ mid ++ TableEndingTag := by
  unfold trimSpaceGo
  have e1 : TableOpeningTag ++ mid ++ TableEndingTag =
      '<' :: (litS "w:tbl>" ++ (mid ++ TableEndingTag)) := by
    simp [TableOpeningTag, litS]
  have e2 : (TableOpeningTag ++ mid ++ TableEndingTag).reverse =
      '>' :: (litS "lbt:w/" ++ ['<'] ++ (TableOpeningTag ++ mid).reverse) := by
    rw [List.reverse_append]
    have h3 : TableEndingTag.reverse = '>' :: (litS "lbt:w/" ++ ['<']) := by decide
    rw [h3]
    simp
  conv_lhs => rw [e1]
  rw [List.dropWhile_cons, if_neg (by decide)]
  rw [← e1, e2]
  rw [List.dropWhile_cons, if_neg (by decide)]
  rw [← e2, List.reverse_reverse]

/-- stripOuterTable peels exactly the wrapper pair off a wrapped table. -/
theorem stripOuterTable_wrapped (mid : Str) :
    stripOuterTable (TableOpeningTag ++ mid ++ TableEndingTag) = mid := by
  have hdp : dropPre (TableOpeningTag ++ mid ++ TableEndingTag) TableOpeningTag =
      mid ++ TableEndingTag := by
    unfold dropPre
    rw [if_pos (by rw [List.isPrefixOf_iff_prefix, List.append_assoc]; exact List.prefix_append _ _)]
    rw [List.append_assoc, List.drop_left]
  have hds : dropSuf (mid ++ TableEndingTag) TableEndingTag = mid := by
    unfold dropSuf
    rw [if_pos ((List.isSuffixOf_iff_suffix).mpr (List.suffix_append _ _))]
    have hl : (mid ++ TableEndingTag).length - TableEndingTag.length = mid.length := by
      simp
    rw [hl, List.take_left]
  unfold stripOuterTable
  rw [trimSpaceGo_angle]
  rw [if_pos ⟨by unfold hasPre; rw [List.isPrefixOf_iff_prefix, List.append_assoc]; exact List.prefix_append _ _,
      by unfold hasSuf; exact (List.isSuffixOf_iff_suffix).mpr (List.suffix_append _ _)⟩]
  rw [hdp, hds]

/-- C4: a table in which no row is classified Positional or Named — in
particular one whose name markers use only names no Map item anywhere
supplies — is returned unmodified by RenderSmartTable: every row is
reproduced unchanged, once, as static text. -/
theorem render_unmodified_when_static (mid : Str) (items : List GoVal)
    (hrows : extractTableRows mid ≠ [])
    (hstatic : ∀ t ∈ mkTplRows (collectLocalKeys items) (extractTableRows mid),
      isFormRow t = false) :
    RenderSmartTable (TableOpeningTag ++ mid ++ TableEndingTag) items =
      .ok (TableOpeningTag ++ mid ++ TableEndingTag) := by
  unfold RenderSmartTable
  rw [stripOuterTable_wrapped]
  rw [if_neg (by simpa using fun hcon => hrows (List.eq_nil_of_length_eq_zero hcon))]
  have hnil : templatesOf (mkTplRows (collectLocalKeys items) (extractTableRows mid)) = [] := by
    unfold templatesOf
    rw [List.filter_eq_nil_iff]
    intro t ht
    simp [hstatic t ht]
  simp only [hnil]
  simp

/-- C4 witness: a table whose only marker `{x}` names a field no item
supplies comes back untouched. -/
theorem render_unmodified_when_static_witness :
    RenderSmartTable (TableOpeningTag ++ litS "<w:tr>\x7bx\x7d</w:tr>" ++ TableEndingTag)
        [GoVal.vmap [(litS "g", GoVal.vmap [(litS "y", GoVal.str (litS "1"))])]] =
      .ok (TableOpeningTag ++ litS "<w:tr>\x7bx\x7d</w:tr>" ++ TableEndingTag) :=
  render_unmodified_when_static (litS "<w:tr>\x7bx\x7d</w:tr>")
    [GoVal.vmap [(litS "g", GoVal.vmap [(litS "y", GoVal.str (litS "1"))])]]
    (by decide) (by decide)

/-- A rePerc match splits the input: the matched text followed by the rest,
and the match is non-empty. -/
theorem matchPercAt_split : ∀ (s : Str) (n : Nat) (raw rest : Str),
    matchPercAt s = some (n, raw, rest) → s = raw ++ rest ∧ 0 < raw.length := by
  intro s n raw rest h
  unfold matchPercAt at h
  split at h
  case _ r =>
    simp only at h
    split at h
    · exact absurd h (by simp)
    · split at h
      case _ ds hne r4 heq =>
        simp only [Option.some.injEq, Prod.mk.injEq] at h
        obtain ⟨h1, h2, h3⟩ := h
        subst h2 h3
        constructor
        · have e1 := (List.takeWhile_append_dropWhile isRE2Space r).symm
          have e2 := (List.takeWhile_append_dropWhile Char.isDigit
            (r.dropWhile isRE2Space)).symm
          have e3 := (List.takeWhile_append_dropWhile isRE2Space
            ((r.dropWhile isRE2Space).dropWhile Char.isDigit)).symm
          conv_lhs => rw [e1, e2, e3, heq]
          simp
        · simp
      case _ => exact absurd h (by simp)
  case _ => exact absurd h (by simp)

/-- The rePerc scan is a decomposition of the original string: concatenating
the literal characters and the raw matched texts restores the input. -/
theorem percScanF_join : ∀ (fuel : Nat) (s : Str), s.length < fuel →
    joinStr ((percScanF fuel s).map (fun t => match t with
      | .inl c => [c] | .inr p => p.2)) = s := by
  intro fuel
  induction fuel with
  | zero => intro s h; omega
  | succ f ih =>
    intro s h
    match s with
    | [] => simp [percScanF, joinStr]
    | c :: rest =>
      simp only [percScanF]
      cases hm : matchPercAt (c :: rest) with
      | none =>
        simp only [List.map_cons, joinStr, List.flatten_cons]
        have := ih rest (by simp at h; omega)
        simp only [joinStr] at this
        rw [this]
        rfl
      | some trip =>
        obtain ⟨n, raw, r4⟩ := trip
        obtain ⟨hsplit, hpos⟩ := matchPercAt_split _ _ _ _ hm
        simp only [List.map_cons, joinStr, List.flatten_cons]
        have hlen : r4.length < f := by
          have : (c :: rest).length = raw.length + r4.length := by
            rw [hsplit]; simp
          simp at h this
          omega
        have := ih r4 hlen
        simp only [joinStr] at this
        rw [this]
        exact hsplit.symm

/-- Without a backtick in the input, the backtick-modifier matcher never
fires. -/
theorem matchBacktickModAt_none (c : Char) (rest : Str) (h : '`' ∉ c :: rest) :
    matchBacktickModAt (c :: rest) = none := by
  simp only [matchBacktickModAt]
  by_cases hc : c = lbrace
  · rw [if_pos hc]
    cases hr : rest.dropWhile isSpTab with
    | nil => rfl
    | cons d r2 =>
      have hd : d ≠ '`' := by
        intro hcon
        apply h
        right
        exact (List.dropWhile_suffix isSpTab).subset (by rw [hr, hcon]; simp)
      split
      · rename_i heq
        cases heq
        exact absurd rfl hd
      · rfl
  · rw [if_neg hc]

/-- Pass 1 of renderPositional is the identity on backtick-free rows. -/
theorem backtickPassF_id (arr : List GoVal) : ∀ (fuel : Nat) (s : Str),
    '`' ∉ s → backtickPassF arr fuel s = s := by
  intro fuel
  induction fuel with
  | zero => intro s _; cases s <;> rfl
  | succ f ih =>
    intro s h
    match s with
    | [] => rfl
    | c :: rest =>
      simp only [backtickPassF]
      rw [matchBacktickModAt_none c rest h]
      rw [ih rest (fun hcon => h (by simp [hcon]))]

/-- Real-value count over canonical 1..k placeholder indices. -/
theorem range'_filter_len : ∀ (k len : Nat),
    ((List.range' 1 k).filter (fun n => decide (1 ≤ n ∧ n ≤ len))).length = min k len := by
  intro k
  induction k with
  | zero => intro len; simp
  | succ k' ih =>
    intro len
    rw [List.range'_concat, List.filter_append, List.length_append, ih len]
    by_cases hle : 1 + 1 * k' ≤ len
    · have hd : (decide (1 ≤ 1 + 1 * k' ∧ 1 + 1 * k' ≤ len)) = true := by
        simp; omega
      simp only [List.filter_cons, hd, if_pos, List.filter_nil, List.length_cons,
        List.length_nil]
      omega
    · have hd : (decide (1 ≤ 1 + 1 * k' ∧ 1 + 1 * k' ≤ len)) = false := by
        simp; omega
      simp only [List.filter_cons, hd, Bool.false_eq_true, if_false, List.filter_nil,
        List.length_nil]
      omega

/-- C2: a Slice item bound to a Positional form yields exactly one output row
(the render loop emits one row per bound item, from that item's values alone);
the row template decomposes into literal gaps and `%[N]s` tokens whose
concatenation restores it, each token is replaced by `fmt.Sprint(values[N-1])`
when `1 ≤ N ≤ len(values)` and by the empty string when `N` exceeds
`len(values)` (padding inside the single row), and with canonical indices
`1..k` the number of tokens receiving a real value is `min(k, len(values))`. -/
theorem positional_min_padding_single_row :
    (∀ (row : Str) (arr : List GoVal), '`' ∉ row →
      renderPositional row arr = replacePerc row arr) ∧
    (∀ row : Str, joinStr ((percScan row).map (fun t => match t with
      | .inl c => [c] | .inr p => p.2)) = row) ∧
    (∀ (row : Str) (arr : List GoVal),
      replacePerc row arr = joinStr ((percScan row).map (fun t => match t with
        | .inl _ => [] ++ (match t with | .inl c => [c] | .inr _ => [])
        | .inr p => percReplToken arr p.1))) ∧
    (∀ (k : Nat) (arr : List GoVal) (row : Str), percIndices row = List.range' 1 k →
      ((percIndices row).filter (fun n => decide (1 ≤ n ∧ n ≤ arr.length))).length
        = min k arr.length) ∧
    (∀ (arr : List GoVal) (n : Nat), arr.length < n → percReplToken arr n = []) ∧
    (∀ (templates : List TplRow) (uf : Nat → List Str) (it : NormItem)
      (its : List NormItem) (a : Int) (rest : List Int),
      0 ≤ a → (templates.getD a.toNat dfltTpl).isPos = true →
      renderDataRows templates uf (it :: its) (a :: rest) =
        renderPositional (templates.getD a.toNat dfltTpl).xml it.sliceVal ::
          renderDataRows templates uf its rest) := by
  refine ⟨?_, ?_, ?_, ?_, ?_, ?_⟩
  · intro row arr h
    unfold renderPositional
    rw [backtickPassF_id arr (row.length + 1) row h]
  · intro row
    exact percScanF_join (row.length + 1) row (by omega)
  · intro row arr
    unfold replacePerc
    congr 1
    apply List.map_congr_left
    intro t _
    cases t with
    | inl c => rfl
    | inr p => rfl
  · intro k arr row hidx
    rw [hidx]
    exact range'_filter_len k arr.length
  · intro arr n hn
    unfold percReplToken
    rw [dif_neg (by omega)]
  · intro templates uf it its a rest ha hpos
    conv_lhs => rw [renderDataRows]
    rw [if_neg (by omega)]
    simp only [hpos, if_pos]

/-- C2 witness: the scenario-B row with one value — pass 1 is the identity,
the scan restores the row, index 2 exceeds the single value and pads empty,
and min(2, 1) = 1 real value is substituted. -/
theorem positional_min_padding_single_row_witness :
    renderPositional (litS "<w:tr>%[1]s - %[2]s</w:tr>") [GoVal.str (litS "AAA")] =
      replacePerc (litS "<w:tr>%[1]s - %[2]s</w:tr>") [GoVal.str (litS "AAA")] ∧
    ((percIndices (litS "<w:tr>%[1]s - %[2]s</w:tr>")).filter
      (fun n => decide (1 ≤ n ∧ n ≤ [GoVal.str (litS "AAA")].length))).length
      = min 2 [GoVal.str (litS "AAA")].length ∧
    percReplToken [GoVal.str (litS "AAA")] 2 = [] :=
  ⟨positional_min_padding_single_row.1 (litS "<w:tr>%[1]s - %[2]s</w:tr>")
      [GoVal.str (litS "AAA")] (by decide),
   positional_min_padding_single_row.2.2.2.1 2 [GoVal.str (litS "AAA")]
      (litS "<w:tr>%[1]s - %[2]s</w:tr>") (by decide),
   positional_min_padding_single_row.2.2.2.2.1 [GoVal.str (litS "AAA")] 2 (by decide)⟩

/-- getD after snoc, below the old length. -/
theorem getD_snoc_lt (l : List Int) (x : Int) (i : Nat) (h : i < l.length) :
    (l ++ [x]).getD i (-7) = l.getD i (-7) :=
  List.getD_append l [x] (-7) i h

/-- getD after snoc, at the old length. -/
theorem getD_snoc_eq (l : List Int) (x : Int) :
    (l ++ [x]).getD l.length (-7) = x := by
  rw [List.getD_append_right l [x] (-7) l.length (le_refl _)]
  simp

/-- getD for items after snoc, below the old length. -/
theorem item_getD_snoc_lt (l : List NormItem) (x : NormItem) (i : Nat) (h : i < l.length) :
    (l ++ [x]).getD i default = l.getD i default :=
  List.getD_append l [x] default i h

/-- getD for items after snoc, at the old length. -/
theorem item_getD_snoc_eq (l : List NormItem) (x : NormItem) :
    (l ++ [x]).getD l.length default = x := by
  rw [List.getD_append_right l [x] default l.length (le_refl _)]
  simp

/-- getD after set, at the set index. -/
theorem getD_set_self (l : List Int) (i : Nat) (x : Int) (h : i < l.length) :
    (l.set i x).getD i (-7) = x := by
  induction l generalizing i with
  | nil => simp at h
  | cons a as ih =>
    cases i with
    | zero => rfl
    | succ i' => exact ih i' (by simpa using h)

/-- getD after set, away from the set index. -/
theorem getD_set_ne (l : List Int) (i j : Nat) (x : Int) (h : i ≠ j) :
    (l.set j x).getD i (-7) = l.getD i (-7) := by
  induction l generalizing i j with
  | nil => simp
  | cons a as ih =>
    cases j with
    | zero => cases i with
      | zero => exact absurd rfl h
      | succ i' => rfl
    | succ j' => cases i with
      | zero => rfl
      | succ i' => exact ih i' j' (by omega)

/-- A positive tryMatch score comes with a non-negative template index. -/
theorem tryMatch_pos_nonneg (templates : List TplRow) (it : NormItem)
    (h : 0 < (tryMatch templates it).2) : 0 ≤ (tryMatch templates it).1 := by
  obtain ⟨_, _, h3⟩ := tryMatchFold_spec it templates 0 (-1) (-1)
  unfold tryMatch
  simp only [List.enum]
  set r := (List.enumFrom 0 templates).foldl (fun (acc : Int × Int) (p : Nat × TplRow) =>
    let sc := score it p.2
    if sc > acc.1 then (sc, Int.ofNat p.1) else acc) (-1, -1) with hr
  by_cases hle : r.1 ≤ 0
  · exfalso
    unfold tryMatch at h
    simp only [List.enum] at h
    rw [← hr] at h
    rw [if_pos hle] at h
    simp at h
  · rw [if_neg hle]
    rcases h3 with heq | ⟨i, _, _, hidx, _, _⟩
    · rw [heq] at hle; simp at hle
    · rw [hidx]
      simp

/-- Appending a bound item (assignment `v ≥ 0`, binding map possibly extended
but preserving old hits) preserves the pass-1 invariant. -/
theorem inv_snoc_assigned (templates : List TplRow) (pre : List NormItem) (it : NormItem)
    (st : MatchSt) (v : Int) (bindX : List (Str × Int))
    (h : MatchInv templates pre st) (hv : 0 ≤ v)
    (hpres : ∀ k x, lookupS st.binding k = some x → lookupS bindX k = some x)
    (hnn : ∀ k x, lookupS bindX k = some x → 0 ≤ x)
    (hnew : it.groupKey ≠ [] → lookupS bindX it.groupKey = some v) :
    MatchInv templates (pre ++ [it]) ⟨bindX, st.assigned ++ [v], st.wait⟩ := by
  obtain ⟨h1, h2, h3, h4, h5, h6, h7⟩ := h
  refine ⟨by simp [h1], ?_, ?_, ?_, ?_, h6, hnn⟩
  · intro i hilen
    dsimp only
    by_cases hi : i < pre.length
    · rw [getD_snoc_lt st.assigned v i (by omega)]
      exact h2 i hi
    · have hieq : i = st.assigned.length := by simp at hilen; omega
      subst hieq
      rw [getD_snoc_eq]
      right; exact hv
  · intro i hilen hge hgk
    dsimp only at hge hgk ⊢
    by_cases hi : i < pre.length
    · rw [getD_snoc_lt st.assigned v i (by omega)] at hge ⊢
      rw [item_getD_snoc_lt pre it i hi] at hgk ⊢
      exact hpres _ _ (h3 i hi hge hgk)
    · have hieq : i = st.assigned.length := by simp at hilen; omega
      subst hieq
      rw [getD_snoc_eq]
      rw [h1, item_getD_snoc_eq pre it] at hgk ⊢
      exact hnew hgk
  · intro i
    dsimp only
    constructor
    · intro hiw
      obtain ⟨hilt, hieq⟩ := (h4 i).mp hiw
      refine ⟨by simp; omega, ?_⟩
      rw [getD_snoc_lt st.assigned v i (by omega)]
      exact hieq
    · intro hcc
      obtain ⟨hilt, hieq⟩ := hcc
      by_cases hi : i < pre.length
      · rw [getD_snoc_lt st.assigned v i (by omega)] at hieq
        exact (h4 i).mpr ⟨hi, hieq⟩
      · have hieq2 : i = st.assigned.length := by simp at hilt; omega
        subst hieq2
        rw [getD_snoc_eq] at hieq
        omega
  · intro i hiw
    dsimp only at hiw ⊢
    have hilt := ((h4 i).mp hiw).1
    rw [item_getD_snoc_lt pre it i hilt]
    exact h5 i hiw

/-- Appending a wait-zone item (assignment `-2`, index recorded) preserves the
pass-1 invariant. -/
theorem inv_snoc_wait (templates : List TplRow) (pre : List NormItem) (it : NormItem)
    (st : MatchSt) (h : MatchInv templates pre st)
    (hsc : (tryMatch templates it).2 ≤ 0) :
    MatchInv templates (pre ++ [it])
      ⟨st.binding, st.assigned ++ [-2], st.wait ++ [pre.length]⟩ := by
  obtain ⟨h1, h2, h3, h4, h5, h6, h7⟩ := h
  refine ⟨by simp [h1], ?_, ?_, ?_, ?_, ?_, h7⟩
  · intro i hilen
    dsimp only
    by_cases hi : i < pre.length
    · rw [getD_snoc_lt st.assigned (-2) i (by omega)]
      exact h2 i hi
    · have hieq : i = st.assigned.length := by simp at hilen; omega
      subst hieq
      rw [getD_snoc_eq]
      left; rfl
  · intro i hilen hge hgk
    dsimp only at hge hgk ⊢
    by_cases hi : i < pre.length
    · rw [getD_snoc_lt st.assigned (-2) i (by omega)] at hge ⊢
      rw [item_getD_snoc_lt pre it i hi] at hgk ⊢
      exact h3 i hi hge hgk
    · have hieq : i = st.assigned.length := by simp at hilen; omega
      subst hieq
      rw [getD_snoc_eq] at hge
      omega
  · intro i
    dsimp only
    rw [List.mem_append]
    constructor
    · intro hiw
      rcases hiw with hiw | hiw
      · obtain ⟨hilt, hieq⟩ := (h4 i).mp hiw
        refine ⟨by simp; omega, ?_⟩
        rw [getD_snoc_lt st.assigned (-2) i (by omega)]
        exact hieq
      · have hieq : i = pre.length := by simpa using hiw
        subst hieq
        refine ⟨by simp, ?_⟩
        rw [← h1, getD_snoc_eq]
    · intro hcc
      obtain ⟨hilt, hieq⟩ := hcc
      by_cases hi : i < pre.length
      · rw [getD_snoc_lt st.assigned (-2) i (by omega)] at hieq
        exact Or.inl ((h4 i).mpr ⟨hi, hieq⟩)
      · have hieq2 : i = pre.length := by simp at hilt; omega
        subst hieq2
        right; simp
  · intro i hiw
    dsimp only at hiw ⊢
    rw [List.mem_append] at hiw
    rcases hiw with hiw | hiw
    · have hilt := ((h4 i).mp hiw).1
      rw [item_getD_snoc_lt pre it i hilt]
      exact h5 i hiw
    · have hieq : i = pre.length := by simpa using hiw
      subst hieq
      rw [item_getD_snoc_eq pre it]
      exact hsc
  · dsimp only
    rw [List.pairwise_append]
    refine ⟨h6, by simp, ?_⟩
    intro a ha b hb
    have hbe : b = pre.length := by simpa using hb
    subst hbe
    exact ((h4 a).mp ha).1

/-- One pass-1 step preserves the invariant. -/
theorem pass1_step_inv (templates : List TplRow) (pre : List NormItem) (it : NormItem)
    (st : MatchSt) (h : MatchInv templates pre st) :
    MatchInv templates (pre ++ [it])
      (if it.groupKey ≠ [] then
        match lookupS st.binding it.groupKey with
        | some b => ⟨st.binding, st.assigned ++ [b], st.wait⟩
        | none => pass1Match templates st pre.length it
      else pass1Match templates st pre.length it) := by
  have h7 := h.2.2.2.2.2.2
  have hMatch : (it.groupKey ≠ [] → lookupS st.binding it.groupKey = none) →
      MatchInv templates (pre ++ [it]) (pass1Match templates st pre.length it) := by
    intro hnone
    unfold pass1Match
    by_cases hsc : (tryMatch templates it).2 > 0
    · simp only [hsc, if_pos]
      by_cases hgk : it.groupKey ≠ []
      · rw [if_pos hgk]
        refine inv_snoc_assigned templates pre it st _ _ h
          (tryMatch_pos_nonneg templates it hsc) ?_ ?_ ?_
        · intro k x hkx
          show (if it.groupKey = k then some (tryMatch templates it).1
            else lookupS st.binding k) = some x
          by_cases hk : it.groupKey = k
          · rw [← hk] at hkx
            rw [hnone hgk] at hkx
            cases hkx
          · rw [if_neg hk]; exact hkx
        · intro k x hkx
          have hkx' : (if it.groupKey = k then some (tryMatch templates it).1
              else lookupS st.binding k) = some x := hkx
          by_cases hk : it.groupKey = k
          · rw [if_pos hk] at hkx'
            cases hkx'
            exact tryMatch_pos_nonneg templates it hsc
          · rw [if_neg hk] at hkx'
            exact h7 k x hkx'
        · intro _
          show (if it.groupKey = it.groupKey then some (tryMatch templates it).1
            else lookupS st.binding it.groupKey) = _
          rw [if_pos rfl]
      · rw [if_neg hgk]
        refine inv_snoc_assigned templates pre it st _ _ h
          (tryMatch_pos_nonneg templates it hsc) (fun k x hkx => hkx) h7 ?_
        intro hcon
        exact absurd hcon hgk
    · simp only [hsc, if_neg, if_false]
      exact inv_snoc_wait templates pre it st h (by omega)
  by_cases hgk : it.groupKey ≠ []
  · rw [if_pos hgk]
    cases hlk : lookupS st.binding it.groupKey with
    | some b =>
      exact inv_snoc_assigned templates pre it st b st.binding h (h7 _ _ hlk)
        (fun k x hkx => hkx) h7 (fun _ => hlk)
    | none => exact hMatch (fun _ => hlk)
  · rw [if_neg hgk]
    exact hMatch (fun hc => absurd hc hgk)

/-- The pass-1 fold preserves the invariant over any item suffix. -/
theorem pass1_fold_inv (templates : List TplRow) :
    ∀ (rest pre : List NormItem) (st : MatchSt), MatchInv templates pre st →
    MatchInv templates (pre ++ rest)
      ((List.enumFrom pre.length rest).foldl (fun st p =>
        if p.2.groupKey ≠ [] then
          match lookupS st.binding p.2.groupKey with
          | some b => ⟨st.binding, st.assigned ++ [b], st.wait⟩
          | none => pass1Match templates st p.1 p.2
        else pass1Match templates st p.1 p.2) st) := by
  intro rest
  induction rest with
  | nil => intro pre st h; simpa using h
  | cons it rest' ih =>
    intro pre st h
    simp only [List.enumFrom, List.foldl_cons]
    have hstep := pass1_step_inv templates pre it st h
    have hlen : pre.length + 1 = (pre ++ [it]).length := by simp
    rw [hlen]
    have := ih (pre ++ [it]) _ hstep
    simpa [List.append_assoc] using this

/-- The invariant holds of pass 1's result. -/
theorem pass1_inv (templates : List TplRow) (nitems : List NormItem) :
    MatchInv templates nitems (pass1 templates nitems) := by
  have h0 : MatchInv templates [] ⟨[], [], []⟩ := by
    refine ⟨rfl, ?_, ?_, ?_, ?_, ?_, ?_⟩ <;> simp [lookupS]
  have := pass1_fold_inv templates nitems [] ⟨[], [], []⟩ h0
  simpa [pass1, List.enum] using this

/-- One pass-2 step: the binding map is unchanged (a wait item re-scores
non-positively, so the tryMatch branch never binds) and the item's entry is
set from the established groupKey binding, or to skip. -/
theorem pass2Step_eq (templates : List TplRow) (nitems : List NormItem)
    (bind1 : List (Str × Int)) (asg : List Int) (w : Nat)
    (hsc : (tryMatch templates (nitems.getD w default)).2 ≤ 0) :
    pass2Step templates nitems (bind1, asg) w =
      (bind1, asg.set w
        (if (nitems.getD w default).groupKey = [] then (-1 : Int)
         else (lookupS bind1 (nitems.getD w default).groupKey).getD (-1))) := by
  unfold pass2Step
  dsimp only
  by_cases hgk : (nitems.getD w default).groupKey ≠ []
  · rw [if_pos hgk]
    cases hlk : lookupS bind1 (nitems.getD w default).groupKey with
    | some b =>
      rw [if_neg (fun hc => hgk hc)]
      rfl
    | none =>
      rw [if_neg (fun hc => hgk hc)]
      rw [if_neg (by omega)]
      rfl
  · push_neg at hgk
    rw [if_neg (by simpa using hgk)]
    rw [if_pos hgk]
    rw [if_neg (by omega)]

/-- Pass 2 leaves the binding map untouched and rewrites exactly the wait-zone
entries: an established groupKey binding is taken, otherwise the item is
skipped (`-1`). -/
theorem pass2_fold_spec (templates : List TplRow) (nitems : List NormItem)
    (bind1 : List (Str × Int)) :
    ∀ (wait : List Nat) (asg : List Int),
    (∀ i ∈ wait, (tryMatch templates (nitems.getD i default)).2 ≤ 0) →
    (∀ i ∈ wait, i < asg.length) →
    wait.Pairwise (· < ·) →
    (wait.foldl (pass2Step templates nitems) (bind1, asg)).1 = bind1 ∧
    (wait.foldl (pass2Step templates nitems) (bind1, asg)).2.length = asg.length ∧
    (∀ i, i < asg.length →
      (wait.foldl (pass2Step templates nitems) (bind1, asg)).2.getD i (-7) =
        if i ∈ wait then
          (if (nitems.getD i default).groupKey = [] then (-1 : Int)
           else (lookupS bind1 (nitems.getD i default).groupKey).getD (-1))
        else asg.getD i (-7)) := by
  intro wait
  induction wait with
  | nil =>
    intro asg _ _ _
    refine ⟨rfl, rfl, ?_⟩
    intro i _
    simp
  | cons w ws ih =>
    intro asg htm hlt hpw
    have hwlen : w < asg.length := hlt w (by simp)
    have hstep := pass2Step_eq templates nitems bind1 asg w (htm w (by simp))
    set V : Int := (if (nitems.getD w default).groupKey = [] then (-1 : Int)
      else (lookupS bind1 (nitems.getD w default).groupKey).getD (-1)) with hV
    simp only [List.foldl_cons, hstep]
    have hws := ih (asg.set w V)
      (fun i hi => htm i (by simp [hi]))
      (fun i hi => by rw [List.length_set]; exact hlt i (by simp [hi]))
      (List.Pairwise.sublist (List.sublist_cons_self w ws) hpw)
    obtain ⟨hb, hlen2, hget⟩ := hws
    refine ⟨hb, by rw [hlen2, List.length_set], ?_⟩
    intro i hi
    rw [hget i (by rw [List.length_set]; exact hi)]
    have hwmem : w ∉ ws := by
      intro hc
      have := (List.pairwise_cons.mp hpw).1 w hc
      omega
    by_cases hiw : i = w
    · subst hiw
      rw [if_neg hwmem, if_pos (show i ∈ i :: ws by simp)]
      rw [getD_set_self asg i V hwlen]
    · by_cases hiws : i ∈ ws
      · rw [if_pos hiws, if_pos (show i ∈ w :: ws by simp [hiws])]
      · rw [if_neg hiws, if_neg (show ¬i ∈ w :: ws by simp [hiws, hiw])]
        rw [getD_set_ne asg i w V hiw]

/-- C3: once any item with a non-empty groupKey is bound to a form, every item
with the same groupKey — earlier or later, matched in pass 1 or routed in
pass 2, regardless of its field overlap with any form — ends bound to that
same form. -/
theorem groupKey_binding_sticky (templates : List TplRow) (nitems : List NormItem)
    (i j : Nat) (hi : i < nitems.length) (hj : j < nitems.length)
    (hgk : (nitems.getD j default).groupKey = (nitems.getD i default).groupKey)
    (hne : (nitems.getD i default).groupKey ≠ [])
    (hasg : 0 ≤ (matchItems templates nitems).2.getD i (-7)) :
    (matchItems templates nitems).2.getD j (-7) =
      (matchItems templates nitems).2.getD i (-7) := by
  obtain ⟨h1, h2, h3, h4, h5, h6, h7⟩ := pass1_inv templates nitems
  have hmi : matchItems templates nitems =
      (pass1 templates nitems).wait.foldl (pass2Step templates nitems)
        ((pass1 templates nitems).binding, (pass1 templates nitems).assigned) := rfl
  obtain ⟨hb, hlen2, hget⟩ := pass2_fold_spec templates nitems
    (pass1 templates nitems).binding (pass1 templates nitems).wait
    (pass1 templates nitems).assigned h5
    (fun w hw => by rw [h1]; exact ((h4 w).mp hw).1) h6
  rw [hmi] at hasg ⊢
  have hig := hget i (by rw [h1]; exact hi)
  have hjg := hget j (by rw [h1]; exact hj)
  -- the established binding for the groupKey names the value item i received
  have key : lookupS (pass1 templates nitems).binding (nitems.getD i default).groupKey =
      some (((pass1 templates nitems).wait.foldl (pass2Step templates nitems)
        ((pass1 templates nitems).binding, (pass1 templates nitems).assigned)).2.getD i (-7)) := by
    by_cases hiw : i ∈ (pass1 templates nitems).wait
    · rw [if_pos hiw, if_neg hne] at hig
      cases hlk : lookupS (pass1 templates nitems).binding
          (nitems.getD i default).groupKey with
      | none =>
        rw [hlk] at hig
        rw [hig] at hasg
        simp at hasg
      | some b =>
        rw [hlk] at hig
        rw [hig]
        rfl
    · rw [if_neg hiw] at hig
      have hne2 : (pass1 templates nitems).assigned.getD i (-7) ≠ -2 := by
        intro hc
        exact hiw ((h4 i).mpr ⟨hi, hc⟩)
      have h0le : 0 ≤ (pass1 templates nitems).assigned.getD i (-7) := by
        rcases h2 i hi with hc | hc
        · exact absurd hc hne2
        · exact hc
      rw [hig]
      exact h3 i hi h0le hne
  by_cases hjw : j ∈ (pass1 templates nitems).wait
  · rw [if_pos hjw, hgk, if_neg hne, key] at hjg
    rw [hjg]
    rfl
  · rw [if_neg hjw] at hjg
    have hne2 : (pass1 templates nitems).assigned.getD j (-7) ≠ -2 := by
      intro hc
      exact hjw ((h4 j).mpr ⟨hj, hc⟩)
    have h0le : 0 ≤ (pass1 templates nitems).assigned.getD j (-7) := by
      rcases h2 j hj with hc | hc
      · exact absurd hc hne2
      · exact hc
    have hjkey := h3 j hj h0le (by rw [hgk]; exact hne)
    rw [hgk, key] at hjkey
    rw [hjg]
    exact ((Option.some.injEq _ _).mp hjkey).symm

/-- C3 witness: two Map items share groupKey `g`; the first matches the named
form on field `a`, the second has no overlapping field at all, yet both end
bound to form 0. -/
theorem groupKey_binding_sticky_witness :
    (matchItems [⟨0, litS "r", ⟨[litS "a"], 0⟩, true, false, false⟩]
      [⟨litS "g", .mapK, [(litS "a", GoVal.str (litS "1"))], []⟩,
       ⟨litS "g", .mapK, [(litS "zz", GoVal.str (litS "2"))], []⟩]).2.getD 1 (-7) =
    (matchItems [⟨0, litS "r", ⟨[litS "a"], 0⟩, true, false, false⟩]
      [⟨litS "g", .mapK, [(litS "a", GoVal.str (litS "1"))], []⟩,
       ⟨litS "g", .mapK, [(litS "zz", GoVal.str (litS "2"))], []⟩]).2.getD 0 (-7) :=
  groupKey_binding_sticky [⟨0, litS "r", ⟨[litS "a"], 0⟩, true, false, false⟩]
    [⟨litS "g", .mapK, [(litS "a", GoVal.str (litS "1"))], []⟩,
     ⟨litS "g", .mapK, [(litS "zz", GoVal.str (litS "2"))], []⟩]
    0 1 (by decide) (by decide) (by decide) (by decide) (by decide)
-- ============================================================================
-- C8 groundwork: substring location, paragraph stepping of RTWP
-- ============================================================================

/-- A `none` answer of `indexOf?` means no suffix of `s` starts with `t`. -/
theorem indexOf?_none_imp (t : Str) : ∀ s, indexOf? s t = none →
    ∀ p, t.isPrefixOf (s.drop p) = false := by
  intro s
  induction s with
  | nil =>
    intro h p
    cases t with
    | nil => simp [indexOf?] at h
    | cons c tl => simp [List.isPrefixOf]
  | cons c s' ih =>
    intro h p
    simp only [indexOf?] at h
    by_cases hp : t.isPrefixOf (c :: s') = true
    · rw [if_pos hp] at h
      exact absurd h (by simp)
    · rw [if_neg hp] at h
      have hin : indexOf? s' t = none := by
        cases hq : indexOf? s' t with
        | none => rfl
        | some j => rw [hq] at h; simp at h
      cases p with
      | zero =>
        simp only [List.drop_zero]
        cases htv : List.isPrefixOf t (c :: s') with
        | false => rfl
        | true => exact absurd htv hp
      | succ p' =>
        simpa using ih hin p'

/-- A `some` answer of `indexOf?` points at a genuine occurrence. -/
theorem indexOf?_some_imp (t : Str) : ∀ s i, indexOf? s t = some i →
    t.isPrefixOf (s.drop i) = true := by
  intro s
  induction s with
  | nil =>
    intro i h
    simp only [indexOf?] at h
    by_cases he : t.isEmpty
    · rw [if_pos he] at h
      cases t with
      | nil => simp [List.isPrefixOf]
      | cons c tl => simp [List.isEmpty] at he
    · rw [if_neg he] at h
      exact absurd h (by simp)
  | cons c s' ih =>
    intro i h
    simp only [indexOf?] at h
    by_cases hp : t.isPrefixOf (c :: s') = true
    · rw [if_pos hp] at h
      have hi : (0 : Nat) = i := by simpa using h
      subst hi
      simpa using hp
    · rw [if_neg hp] at h
      cases hq : indexOf? s' t with
      | none => rw [hq] at h; simp at h
      | some j =>
        rw [hq] at h
        have hi : j + 1 = i := by simpa using h
        subst hi
        simpa using ih j hq

/-- An occurrence as a prefix of some suffix certifies `containsSub`. -/
theorem containsSub_of_drop (s t : Str) (p : Nat) (h : t.isPrefixOf (s.drop p) = true) :
    containsSub s t = true := by
  unfold containsSub
  cases hq : indexOf? s t with
  | none => exact absurd h (by simp [indexOf?_none_imp t s hq p])
  | some i => rfl

/-- Every string contains itself. -/
theorem containsSub_self (t : Str) : containsSub t t = true :=
  containsSub_of_drop t t 0 (by simp [List.isPrefixOf_iff_prefix])

/-- Characters of a contained substring are characters of the string. -/
theorem mem_of_containsSub (s t : Str) (h : containsSub s t = true) :
    ∀ a, a ∈ t → a ∈ s := by
  intro a ha
  unfold containsSub at h
  cases hq : indexOf? s t with
  | none => rw [hq] at h; simp at h
  | some i =>
    have hp := indexOf?_some_imp t s i hq
    rw [List.isPrefixOf_iff_prefix] at hp
    exact List.mem_of_mem_drop (hp.subset ha)

/-- `containsSub` is monotone under prepending a character. -/
theorem containsSub_cons (a : Char) (s t : Str) (h : containsSub s t = true) :
    containsSub (a :: s) t = true := by
  unfold containsSub at h
  cases hq : indexOf? s t with
  | none => rw [hq] at h; simp at h
  | some i =>
    exact containsSub_of_drop (a :: s) t (i + 1)
      (by simpa using indexOf?_some_imp t s i hq)

/-- The first occurrence of a non-empty needle `t` in `A ++ B` sits exactly at
position `A.length` when `B` starts with `t` and no occurrence fits earlier
(the guard covers occurrences straddling the boundary: any such occurrence
lies inside `A` extended by the first `t.length - 1` characters of `t`). -/
theorem indexOf?_first_at (t : Str) (ht : t ≠ []) :
    ∀ A B, t.isPrefixOf B = true →
      containsSub (A ++ t.take (t.length - 1)) t = false →
      indexOf? (A ++ B) t = some A.length := by
  intro A
  induction A with
  | nil =>
    intro B hpre _
    cases B with
    | nil =>
      rw [List.isPrefixOf_iff_prefix] at hpre
      exact absurd (List.prefix_nil.mp hpre) ht
    | cons c B' =>
      simp only [List.nil_append, indexOf?]
      rw [if_pos hpre]
      rfl
  | cons a A' ih =>
    intro B hpre hnot
    have hnotp : t.isPrefixOf (a :: (A' ++ B)) = false := by
      cases hP : t.isPrefixOf (a :: (A' ++ B)) with
      | false => rfl
      | true =>
        exfalso
        rw [List.isPrefixOf_iff_prefix] at hpre hP
        obtain ⟨B', hB⟩ := hpre
        have hshape : a :: (A' ++ B) =
            ((a :: A') ++ t.take (t.length - 1)) ++ (t.drop (t.length - 1) ++ B') := by
          conv_rhs =>
            rw [List.append_assoc, ← List.append_assoc (t.take (t.length - 1)),
              List.take_append_drop, hB]
          exact (List.cons_append a A' B).symm
        have hXpre : t <+: ((a :: A') ++ t.take (t.length - 1)) := by
          refine List.prefix_of_prefix_length_le (hshape ▸ hP) (List.prefix_append _ _) ?_
          have h1 : 0 < t.length := List.length_pos.mpr ht
          simp only [List.length_append, List.length_cons, List.length_take]
          omega
        have hcc : containsSub ((a :: A') ++ t.take (t.length - 1)) t = true :=
          containsSub_of_drop _ _ 0 (by simpa [List.isPrefixOf_iff_prefix] using hXpre)
        rw [hnot] at hcc
        exact Bool.noConfusion hcc
    show indexOf? ((a :: A') ++ B) t = some ((a :: A').length)
    rw [List.cons_append]
    simp only [indexOf?]
    rw [if_neg (by simp [hnotp])]
    have hnot' : containsSub (A' ++ t.take (t.length - 1)) t = false := by
      cases hq : containsSub (A' ++ t.take (t.length - 1)) t with
      | false => rfl
      | true =>
        have hcc := containsSub_cons a _ t hq
        rw [← List.cons_append] at hcc
        rw [hnot] at hcc
        exact Bool.noConfusion hcc
    rw [ih B hpre hnot']
    simp

/-- Characters produced by `extractParagraphTextF` come from the paragraph. -/
theorem extractF_mem : ∀ fuel p a, a ∈ extractParagraphTextF fuel p → a ∈ p := by
  intro fuel
  induction fuel with
  | zero => intro p a h; simp [extractParagraphTextF] at h
  | succ f ih =>
    intro p a h
    cases h1 : indexOf? p (litS "<w:t>") with
    | none => simp [extractParagraphTextF, h1] at h
    | some start =>
      cases h2 : indexOf? (p.drop (start + 5)) (litS "</w:t>") with
      | none => simp [extractParagraphTextF, h1, h2] at h
      | some e =>
        simp only [extractParagraphTextF, h1, h2] at h
        rcases List.mem_append.mp h with hl | hr
        · exact List.mem_of_mem_drop (List.mem_of_mem_take hl)
        · exact List.mem_of_mem_drop (List.mem_of_mem_drop (ih _ a hr))

/-- Characters of the extracted paragraph text come from the paragraph. -/
theorem extract_mem (p : Str) (a : Char) (h : a ∈ extractParagraphText p) : a ∈ p :=
  extractF_mem _ p a h

/-- A string free of some character of `tag` is fixed by the RTWP scan. -/
theorem rtwpF_no_char (tag content : Str) (ch : Char) (hch : ch ∈ tag) :
    ∀ fuel s, ch ∉ s → rtwpF tag content fuel s = s := by
  intro fuel
  induction fuel with
  | zero => intro s _; rfl
  | succ f ih =>
    intro s hs
    cases h1 : indexOf? s ParagraphOpeningTag with
    | none => simp [rtwpF, h1]
    | some start =>
      cases h2 : indexOf? (s.drop start) ParagraphClosingTag with
      | none => simp [rtwpF, h1, h2]
      | some e =>
        have htext : containsSub
            (extractParagraphText ((s.drop start).take (e + ParagraphClosingTag.length)))
              tag = false := by
          cases hq : containsSub
              (extractParagraphText ((s.drop start).take (e + ParagraphClosingTag.length)))
                tag with
          | false => rfl
          | true =>
            exfalso
            exact hs (List.mem_of_mem_drop (List.mem_of_mem_take
              (extract_mem _ ch (mem_of_containsSub _ _ hq ch hch))))
        simp only [rtwpF, h1, h2]
        rw [if_pos (by simp [htext])]
        rw [ih (s.drop (start + e + ParagraphClosingTag.length))
          (fun hc => hs (List.mem_of_mem_drop hc))]
        exact List.take_append_drop _ s

/-- Location facts for the first paragraph of `A ++ (<w:p> c </w:p>) ++ B`. -/
theorem rtwp_locate (A c B : Str)
    (hA : containsSub (A ++ litS "<w:p") ParagraphOpeningTag = false)
    (hC : containsSub (ParagraphOpeningTag ++ c ++ litS "</w:p") ParagraphClosingTag = false) :
    indexOf? (A ++ (ParagraphOpeningTag ++ c ++ ParagraphClosingTag) ++ B)
        ParagraphOpeningTag = some A.length ∧
    indexOf? ((A ++ (ParagraphOpeningTag ++ c ++ ParagraphClosingTag) ++ B).drop A.length)
        ParagraphClosingTag = some (5 + c.length) := by
  constructor
  · rw [List.append_assoc]
    apply indexOf?_first_at ParagraphOpeningTag (by decide) A
    · rw [List.isPrefixOf_iff_prefix, List.append_assoc, List.append_assoc]
      exact List.prefix_append _ _
    · rw [show ParagraphOpeningTag.take (ParagraphOpeningTag.length - 1) = litS "<w:p"
        from by decide]
      exact hA
  · rw [List.append_assoc, List.drop_left, List.append_assoc (ParagraphOpeningTag ++ c)]
    have hloc := indexOf?_first_at ParagraphClosingTag (by decide)
      (ParagraphOpeningTag ++ c) (ParagraphClosingTag ++ B)
      (by rw [List.isPrefixOf_iff_prefix]; exact List.prefix_append _ _)
      (by
        rw [show ParagraphClosingTag.take (ParagraphClosingTag.length - 1) = litS "</w:p"
          from by decide]
        exact hC)
    simpa [List.length_append, show ParagraphOpeningTag.length = 5 from by decide] using hloc

/-- RTWP passes a paragraph free of the tag through and scans on after it. -/
theorem rtwpF_step_skip (tag content : Str) (fuel : Nat) (A c B : Str)
    (hA : containsSub (A ++ litS "<w:p") ParagraphOpeningTag = false)
    (hC : containsSub (ParagraphOpeningTag ++ c ++ litS "</w:p") ParagraphClosingTag = false)
    (hno : containsSub
      (extractParagraphText (ParagraphOpeningTag ++ c ++ ParagraphClosingTag)) tag = false) :
    rtwpF tag content (fuel + 1) (A ++ (ParagraphOpeningTag ++ c ++ ParagraphClosingTag) ++ B)
      = (A ++ (ParagraphOpeningTag ++ c ++ ParagraphClosingTag)) ++ rtwpF tag content fuel B := by
  obtain ⟨h1, h2⟩ := rtwp_locate A c B hA hC
  have hpar : ((A ++ (ParagraphOpeningTag ++ c ++ ParagraphClosingTag) ++ B).drop A.length).take
      (5 + c.length + ParagraphClosingTag.length)
        = ParagraphOpeningTag ++ c ++ ParagraphClosingTag := by
    rw [List.append_assoc, List.drop_left]
    have hlen : (ParagraphOpeningTag ++ c ++ ParagraphClosingTag).length
        = 5 + c.length + ParagraphClosingTag.length := by
      simp only [List.length_append, show ParagraphOpeningTag.length = 5 from by decide]
    rw [← hlen, List.take_left]
  have hlen2 : (A ++ (ParagraphOpeningTag ++ c ++ ParagraphClosingTag)).length
      = A.length + (5 + c.length) + ParagraphClosingTag.length := by
    simp only [List.length_append, show ParagraphOpeningTag.length = 5 from by decide]
    omega
  have htake : (A ++ (ParagraphOpeningTag ++ c ++ ParagraphClosingTag) ++ B).take
      (A.length + (5 + c.length) + ParagraphClosingTag.length)
        = A ++ (ParagraphOpeningTag ++ c ++ ParagraphClosingTag) := by
    rw [← hlen2, List.take_left]
  have hdropE : (A ++ (ParagraphOpeningTag ++ c ++ ParagraphClosingTag) ++ B).drop
      (A.length + (5 + c.length) + ParagraphClosingTag.length) = B := by
    rw [← hlen2, List.drop_left]
  simp only [rtwpF, h1, h2]
  rw [hpar]
  rw [if_pos (by rw [hno]; simp)]
  rw [htake, hdropE]

/-- RTWP replaces a paragraph whose text trim-equals the tag by the content. -/
theorem rtwpF_step_exact (tag content : Str) (fuel : Nat) (A c B : Str)
    (hA : containsSub (A ++ litS "<w:p") ParagraphOpeningTag = false)
    (hC : containsSub (ParagraphOpeningTag ++ c ++ litS "</w:p") ParagraphClosingTag = false)
    (hcont : containsSub
      (extractParagraphText (ParagraphOpeningTag ++ c ++ ParagraphClosingTag)) tag = true)
    (htrim : trimSpaceGo
      (extractParagraphText (ParagraphOpeningTag ++ c ++ ParagraphClosingTag)) = tag) :
    rtwpF tag content (fuel + 1) (A ++ (ParagraphOpeningTag ++ c ++ ParagraphClosingTag) ++ B)
      = A ++ content ++ rtwpF tag content fuel B := by
  obtain ⟨h1, h2⟩ := rtwp_locate A c B hA hC
  have hpar : ((A ++ (ParagraphOpeningTag ++ c ++ ParagraphClosingTag) ++ B).drop A.length).take
      (5 + c.length + ParagraphClosingTag.length)
        = ParagraphOpeningTag ++ c ++ ParagraphClosingTag := by
    rw [List.append_assoc, List.drop_left]
    have hlen : (ParagraphOpeningTag ++ c ++ ParagraphClosingTag).length
        = 5 + c.length + ParagraphClosingTag.length := by
      simp only [List.length_append, show ParagraphOpeningTag.length = 5 from by decide]
    rw [← hlen, List.take_left]
  have hlen2 : (A ++ (ParagraphOpeningTag ++ c ++ ParagraphClosingTag)).length
      = A.length + (5 + c.length) + ParagraphClosingTag.length := by
    simp only [List.length_append, show ParagraphOpeningTag.length = 5 from by decide]
    omega
  have htakeA : (A ++ (ParagraphOpeningTag ++ c ++ ParagraphClosingTag) ++ B).take A.length
      = A := by
    rw [List.append_assoc, List.take_left]
  have hdropE : (A ++ (ParagraphOpeningTag ++ c ++ ParagraphClosingTag) ++ B).drop
      (A.length + (5 + c.length) + ParagraphClosingTag.length) = B := by
    rw [← hlen2, List.drop_left]
  simp only [rtwpF, h1, h2]
  rw [hpar]
  rw [if_neg (by rw [hcont]; simp)]
  rw [if_pos htrim]
  rw [htakeA, hdropE]

/-- The scan of `extractParagraphTextF` finds no text run in the residue of
the opening-marker paragraph. -/
theorem extractF_tail : ∀ fuel, extractParagraphTextF fuel (litS "</w:r></w:p>") = [] := by
  intro fuel
  cases fuel with
  | zero => rfl
  | succ f =>
    simp only [extractParagraphTextF,
      show indexOf? (litS "</w:r></w:p>") (litS "<w:t>") = none from by decide]

/-- The extracted text of the opening-marker paragraph is the bracket marker. -/
theorem extract_openPara (n : Str)
    (h8 : containsSub ((litS "[table/" ++ n ++ litS "]") ++ litS "</w:t") (litS "</w:t>")
      = false) :
    extractParagraphText
        (ParagraphOpeningTag ++ (litS "<w:r><w:t>[table/" ++ n ++ litS "]</w:t></w:r>")
          ++ ParagraphClosingTag)
      = litS "[table/" ++ n ++ litS "]" := by
  have hsplit : ParagraphOpeningTag
        ++ (litS "<w:r><w:t>[table/" ++ n ++ litS "]</w:t></w:r>") ++ ParagraphClosingTag
      = litS "<w:p><w:r><w:t>" ++ (litS "[table/" ++ n ++ litS "]</w:t></w:r></w:p>") := by
    rw [show ParagraphOpeningTag = litS "<w:p>" from rfl,
      show ParagraphClosingTag = litS "</w:p>" from rfl,
      show litS "<w:p><w:r><w:t>" = litS "<w:p>" ++ litS "<w:r><w:t>" from by decide,
      show litS "]</w:t></w:r></w:p>" = litS "]</w:t></w:r>" ++ litS "</w:p>" from by decide,
      show litS "<w:r><w:t>[table/" = litS "<w:r><w:t>" ++ litS "[table/" from by decide]
    simp [List.append_assoc]
  have hsp2 : litS "<w:p><w:r><w:t>" ++ (litS "[table/" ++ n ++ litS "]</w:t></w:r></w:p>")
      = litS "<w:p><w:r>"
        ++ (litS "<w:t>" ++ (litS "[table/" ++ n ++ litS "]</w:t></w:r></w:p>")) := by
    rw [show litS "<w:p><w:r><w:t>" = litS "<w:p><w:r>" ++ litS "<w:t>" from by decide]
    simp [List.append_assoc]
  have h1 : indexOf?
      (litS "<w:p><w:r><w:t>" ++ (litS "[table/" ++ n ++ litS "]</w:t></w:r></w:p>"))
      (litS "<w:t>") = some 10 := by
    rw [hsp2, show (10 : Nat) = (litS "<w:p><w:r>").length from by decide]
    exact indexOf?_first_at (litS "<w:t>") (by decide) _ _
      (by rw [List.isPrefixOf_iff_prefix]; exact List.prefix_append _ _)
      (by decide)
  have hdrop15 :
      (litS "<w:p><w:r><w:t>" ++ (litS "[table/" ++ n ++ litS "]</w:t></w:r></w:p>")).drop
        (10 + 5) = litS "[table/" ++ n ++ litS "]</w:t></w:r></w:p>" := by
    rw [show (10 : Nat) + 5 = (litS "<w:p><w:r><w:t>").length from by decide, List.drop_left]
  have hsh3 : litS "[table/" ++ n ++ litS "]</w:t></w:r></w:p>"
      = (litS "[table/" ++ n ++ litS "]") ++ (litS "</w:t>" ++ litS "</w:r></w:p>") := by
    rw [show litS "]</w:t></w:r></w:p>" = litS "]" ++ (litS "</w:t>" ++ litS "</w:r></w:p>")
      from by decide]
    simp [List.append_assoc]
  have h2 : indexOf? (litS "[table/" ++ n ++ litS "]</w:t></w:r></w:p>") (litS "</w:t>")
      = some (litS "[table/" ++ n ++ litS "]").length := by
    rw [hsh3]
    exact indexOf?_first_at (litS "</w:t>") (by decide) _ _
      (by rw [List.isPrefixOf_iff_prefix]; exact List.prefix_append _ _)
      (by
        rw [show (litS "</w:t>").take ((litS "</w:t>").length - 1) = litS "</w:t"
          from by decide]
        exact h8)
  have htk : (litS "[table/" ++ n ++ litS "]</w:t></w:r></w:p>").take
      (litS "[table/" ++ n ++ litS "]").length = litS "[table/" ++ n ++ litS "]" := by
    rw [hsh3, List.take_left]
  have hdr : (litS "[table/" ++ n ++ litS "]</w:t></w:r></w:p>").drop
      ((litS "[table/" ++ n ++ litS "]").length + 6) = litS "</w:r></w:p>" := by
    rw [hsh3, ← List.append_assoc]
    have hl6 : ((litS "[table/" ++ n ++ litS "]") ++ litS "</w:t>").length
        = (litS "[table/" ++ n ++ litS "]").length + 6 := by
      simp only [List.length_append, show (litS "</w:t>").length = 6 from by decide]
    rw [← hl6, List.drop_left]
  unfold extractParagraphText
  rw [hsplit]
  rw [extractParagraphTextF]
  simp only [h1, hdrop15, h2, htk, hdr, extractF_tail, List.append_nil]

/-- Trimming spaces fixes the bracket marker (it opens `[` and closes `]`). -/
theorem trimSpace_openTag (n : Str) :
    trimSpaceGo (litS "[table/" ++ n ++ litS "]") = litS "[table/" ++ n ++ litS "]" := by
  have hcons : litS "[table/" ++ n ++ litS "]" = '[' :: (litS "table/" ++ (n ++ litS "]")) := by
    rw [show litS "[table/" = '[' :: litS "table/" from rfl]
    simp [List.append_assoc]
  have h1 : (litS "[table/" ++ n ++ litS "]").dropWhile isGoSpace
      = litS "[table/" ++ n ++ litS "]" := by
    rw [hcons, List.dropWhile_cons, if_neg (by decide)]
  have hrev : (litS "[table/" ++ n ++ litS "]").reverse
      = ']' :: (n.reverse ++ (litS "[table/").reverse) := by
    rw [List.append_assoc, List.reverse_append, List.reverse_append,
      show (litS "]").reverse = [']'] from by decide]
    simp [List.append_assoc]
  have h2 : (']' :: (n.reverse ++ (litS "[table/").reverse)).dropWhile isGoSpace
      = ']' :: (n.reverse ++ (litS "[table/").reverse) := by
    rw [List.dropWhile_cons, if_neg (by decide)]
  unfold trimSpaceGo
  rw [h1, hrev, h2, ← hrev, List.reverse_reverse]
/-- Replacing the marker paragraph: RTWP with the bracket marker itself as tag
substitutes the content for the marker paragraph and leaves the prefix and a
bracket-free suffix untouched. -/
theorem rtwp_marker_para (n pre X content : Str)
    (hPre : containsSub (pre ++ litS "<w:p") ParagraphOpeningTag = false)
    (hOpenPara : containsSub (ParagraphOpeningTag
      ++ (litS "<w:r><w:t>[table/" ++ n ++ litS "]</w:t></w:r>") ++ litS "</w:p")
      ParagraphClosingTag = false)
    (hText : containsSub (litS "[table/" ++ n ++ litS "]" ++ litS "</w:t") (litS "</w:t>")
      = false)
    (hX : '[' ∉ X) :
    ReplaceTagWithParagraph
        (pre ++ (ParagraphOpeningTag ++ (litS "<w:r><w:t>[table/" ++ n ++ litS "]</w:t></w:r>")
          ++ ParagraphClosingTag) ++ X)
        (litS "[table/" ++ n ++ litS "]") content
      = pre ++ content ++ X := by
  unfold ReplaceTagWithParagraph
  rw [rtwpF_step_exact (litS "[table/" ++ n ++ litS "]") content _ pre _ X hPre hOpenPara
    (by rw [extract_openPara n hText]; exact containsSub_self _)
    (by rw [extract_openPara n hText]; exact trimSpace_openTag n)]
  rw [rtwpF_no_char (litS "[table/" ++ n ++ litS "]") content '['
    (by rw [List.append_assoc]; exact List.mem_append.mpr (Or.inl (by decide))) _ X hX]

/-- Deleting the closing-marker paragraph: the first RTWP call of the resolve
loop removes exactly the `[/table]` paragraph of a well-formed region. -/
theorem rtwpF_close_two (n pre sep1 tb sep2 post : Str) (fuel : Nat)
    (hPre : containsSub (pre ++ litS "<w:p") ParagraphOpeningTag = false)
    (hOpenPara : containsSub (ParagraphOpeningTag
      ++ (litS "<w:r><w:t>[table/" ++ n ++ litS "]</w:t></w:r>") ++ litS "</w:p")
      ParagraphClosingTag = false)
    (hText : containsSub (litS "[table/" ++ n ++ litS "]" ++ litS "</w:t") (litS "</w:t>")
      = false)
    (hNoClose : containsSub (litS "[table/" ++ n ++ litS "]") (litS "[/table]") = false)
    (hGlue : containsSub (sep1 ++ tb ++ sep2 ++ litS "<w:p") ParagraphOpeningTag = false)
    (hPost : '[' ∉ post) :
    rtwpF (litS "[/table]") [] (fuel + 2)
        (pre ++ (ParagraphOpeningTag ++ (litS "<w:r><w:t>[table/" ++ n ++ litS "]</w:t></w:r>")
          ++ ParagraphClosingTag) ++ (sep1 ++ tb ++ sep2 ++ closeParaStr ++ post))
      = pre ++ (ParagraphOpeningTag ++ (litS "<w:r><w:t>[table/" ++ n ++ litS "]</w:t></w:r>")
          ++ ParagraphClosingTag) ++ (sep1 ++ tb ++ sep2 ++ post) := by
  rw [rtwpF_step_skip (litS "[/table]") [] _ pre _ _ hPre hOpenPara
    (by rw [extract_openPara n hText]; exact hNoClose)]
  rw [show closeParaStr = ParagraphOpeningTag ++ litS "<w:r><w:t>[/table]</w:t></w:r>"
    ++ ParagraphClosingTag from by decide]
  rw [rtwpF_step_exact (litS "[/table]") [] fuel (sep1 ++ tb ++ sep2)
    (litS "<w:r><w:t>[/table]</w:t></w:r>") post hGlue (by decide) (by decide) (by decide)]
  rw [rtwpF_no_char (litS "[/table]") [] '[' (by decide) fuel post hPost]
  simp [List.append_assoc]

/-- `ReplaceTagWithParagraph` wrapper of `rtwpF_close_two`. -/
theorem rtwp_close_para (n pre sep1 tb sep2 post : Str)
    (hPre : containsSub (pre ++ litS "<w:p") ParagraphOpeningTag = false)
    (hOpenPara : containsSub (ParagraphOpeningTag
      ++ (litS "<w:r><w:t>[table/" ++ n ++ litS "]</w:t></w:r>") ++ litS "</w:p")
      ParagraphClosingTag = false)
    (hText : containsSub (litS "[table/" ++ n ++ litS "]" ++ litS "</w:t") (litS "</w:t>")
      = false)
    (hNoClose : containsSub (litS "[table/" ++ n ++ litS "]") (litS "[/table]") = false)
    (hGlue : containsSub (sep1 ++ tb ++ sep2 ++ litS "<w:p") ParagraphOpeningTag = false)
    (hPost : '[' ∉ post) :
    ReplaceTagWithParagraph
        (pre ++ (ParagraphOpeningTag ++ (litS "<w:r><w:t>[table/" ++ n ++ litS "]</w:t></w:r>")
          ++ ParagraphClosingTag) ++ (sep1 ++ tb ++ sep2 ++ closeParaStr ++ post))
        (litS "[/table]") []
      = pre ++ (ParagraphOpeningTag ++ (litS "<w:r><w:t>[table/" ++ n ++ litS "]</w:t></w:r>")
          ++ ParagraphClosingTag) ++ (sep1 ++ tb ++ sep2 ++ post) := by
  unfold ReplaceTagWithParagraph
  have hpos : 1 ≤ (pre ++ (ParagraphOpeningTag
      ++ (litS "<w:r><w:t>[table/" ++ n ++ litS "]</w:t></w:r>") ++ ParagraphClosingTag)
      ++ (sep1 ++ tb ++ sep2 ++ closeParaStr ++ post)).length := by
    simp only [List.length_append]
    have h5 : ParagraphOpeningTag.length = 5 := by decide
    omega
  obtain ⟨f, hf⟩ : ∃ f, (pre ++ (ParagraphOpeningTag
      ++ (litS "<w:r><w:t>[table/" ++ n ++ litS "]</w:t></w:r>") ++ ParagraphClosingTag)
      ++ (sep1 ++ tb ++ sep2 ++ closeParaStr ++ post)).length + 1 = f + 2 :=
    ⟨(pre ++ (ParagraphOpeningTag
        ++ (litS "<w:r><w:t>[table/" ++ n ++ litS "]</w:t></w:r>") ++ ParagraphClosingTag)
        ++ (sep1 ++ tb ++ sep2 ++ closeParaStr ++ post)).length - 1, by omega⟩
  rw [hf, rtwpF_close_two n pre sep1 tb sep2 post f hPre hOpenPara hText hNoClose hGlue hPost]
/-- C8: For a `[table/name] ... [/table]` region whose glue text is free of the
scanner's tokens, one iteration of ResolveTables routes as specified: a missing
data entry, a non-slice data value, or a failing render leaves the original
table markup in place and strips exactly the two bracket-marker paragraphs,
while a successful non-blank render replaces the opening-marker paragraph with
the rendered table and discards the original table and the closing-marker
paragraph. -/
theorem resolveTables_marker_routing
    (data : List (Str × GoVal)) (pre n sep1 mid sep2 post tb body : Str)
    (htb : tb = TableOpeningTag ++ mid ++ TableEndingTag)
    (hbody : body = pre ++ openParaOf n ++ sep1 ++ tb ++ sep2 ++ closeParaStr ++ post)
    (hMar1 : containsSub (pre ++ litS "<w:p><w:r><w:t>" ++ litS "[table") (litS "[table/")
      = false)
    (hMar2 : containsSub (litS "[table/" ++ n) (litS "]") = false)
    (hMar3 : containsSub (litS "</w:t></w:r></w:p>" ++ sep1 ++ tb ++ sep2
      ++ litS "<w:p><w:r><w:t>" ++ litS "[/table") (litS "[/table]") = false)
    (hMar4 : containsSub (litS "</w:t></w:r></w:p>" ++ sep1 ++ litS "<w:tb") (litS "<w:tbl")
      = false)
    (hMar5 : containsSub (litS "</w:t></w:r></w:p>" ++ sep1 ++ litS "<w:tbl>" ++ mid
      ++ litS "</w:tbl") (litS "</w:tbl>") = false)
    (hPre : containsSub (pre ++ litS "<w:p") ParagraphOpeningTag = false)
    (hOpenPara : containsSub (ParagraphOpeningTag
      ++ (litS "<w:r><w:t>[table/" ++ n ++ litS "]</w:t></w:r>") ++ litS "</w:p")
      ParagraphClosingTag = false)
    (hText : containsSub (litS "[table/" ++ n ++ litS "]" ++ litS "</w:t") (litS "</w:t>")
      = false)
    (hNoClose : containsSub (litS "[table/" ++ n ++ litS "]") (litS "[/table]") = false)
    (hGlue : containsSub (sep1 ++ tb ++ sep2 ++ litS "<w:p") ParagraphOpeningTag = false)
    (hS1 : '[' ∉ sep1) (hMid : '[' ∉ mid) (hS2 : '[' ∉ sep2) (hPost : '[' ∉ post)
    (hTblOnce : containsSub (pre ++ openParaOf n ++ sep1
      ++ (TableOpeningTag ++ mid ++ litS "</w:tbl")) tb = false) :
    (lookupS data n = none →
      resolveTablesStep data body = StepRes.next (pre ++ sep1 ++ tb ++ sep2 ++ post)) ∧
    (∀ raw, lookupS data n = some raw → normalizeItems raw = none →
      resolveTablesStep data body = StepRes.next (pre ++ sep1 ++ tb ++ sep2 ++ post)) ∧
    (∀ raw items err, lookupS data n = some raw → normalizeItems raw = some items →
      RenderSmartTable tb items = Except.error err →
      resolveTablesStep data body = StepRes.next (pre ++ sep1 ++ tb ++ sep2 ++ post)) ∧
    (∀ raw items rendered, lookupS data n = some raw → normalizeItems raw = some items →
      RenderSmartTable tb items = Except.ok rendered → trimSpaceGo rendered ≠ [] →
      resolveTablesStep data body
        = StepRes.next (pre ++ rendered ++ sep1 ++ sep2 ++ post)) := by
  have hbodyA : body = (pre ++ litS "<w:p><w:r><w:t>")
      ++ (litS "[table/" ++ (n ++ (litS "]</w:t></w:r></w:p>"
        ++ (sep1 ++ (tb ++ (sep2 ++ (closeParaStr ++ post))))))) := by
    rw [hbody, openParaOf,
      show litS "<w:p><w:r><w:t>[table/" = litS "<w:p><w:r><w:t>" ++ litS "[table/"
        from by decide]
    simp [List.append_assoc]
  have hL1 : indexOf? body (litS "[table/") = some (pre ++ litS "<w:p><w:r><w:t>").length := by
    rw [hbodyA]
    exact indexOf?_first_at (litS "[table/") (by decide) _ _
      (by rw [List.isPrefixOf_iff_prefix]; exact List.prefix_append _ _)
      (by
        rw [show (litS "[table/").take ((litS "[table/").length - 1) = litS "[table"
          from by decide]
        exact hMar1)
  have hL2 : body.drop (pre ++ litS "<w:p><w:r><w:t>").length
      = litS "[table/" ++ (n ++ (litS "]</w:t></w:r></w:p>"
        ++ (sep1 ++ (tb ++ (sep2 ++ (closeParaStr ++ post)))))) := by
    rw [hbodyA, List.drop_left]
  have hre2 : litS "[table/" ++ (n ++ (litS "]</w:t></w:r></w:p>"
        ++ (sep1 ++ (tb ++ (sep2 ++ (closeParaStr ++ post))))))
      = (litS "[table/" ++ n) ++ (litS "]" ++ (litS "</w:t></w:r></w:p>"
        ++ (sep1 ++ (tb ++ (sep2 ++ (closeParaStr ++ post)))))) := by
    rw [show litS "]</w:t></w:r></w:p>" = litS "]" ++ litS "</w:t></w:r></w:p>" from by decide]
    simp [List.append_assoc]
  have hL3 : indexOf? (body.drop (pre ++ litS "<w:p><w:r><w:t>").length) (litS "]")
      = some (litS "[table/" ++ n).length := by
    rw [hL2, hre2]
    exact indexOf?_first_at (litS "]") (by decide) _ _
      (by rw [List.isPrefixOf_iff_prefix]; exact List.prefix_append _ _)
      (by
        rw [show (litS "]").take ((litS "]").length - 1) = ([] : Str) from by decide,
          List.append_nil]
        exact hMar2)
  have hre3 : litS "[table/" ++ (n ++ (litS "]</w:t></w:r></w:p>"
        ++ (sep1 ++ (tb ++ (sep2 ++ (closeParaStr ++ post))))))
      = (litS "[table/" ++ n ++ litS "]") ++ (litS "</w:t></w:r></w:p>"
        ++ (sep1 ++ (tb ++ (sep2 ++ (closeParaStr ++ post))))) := by
    rw [show litS "]</w:t></w:r></w:p>" = litS "]" ++ litS "</w:t></w:r></w:p>" from by decide]
    simp [List.append_assoc]
  have hL4 : (body.drop (pre ++ litS "<w:p><w:r><w:t>").length).take
      ((litS "[table/" ++ n).length + 1) = litS "[table/" ++ n ++ litS "]" := by
    rw [hL2, hre3,
      show (litS "[table/" ++ n).length + 1 = (litS "[table/" ++ n ++ litS "]").length from by
        simp only [List.length_append, show (litS "]").length = 1 from by decide],
      List.take_left]
  have hL5 : dropSuf (dropPre (litS "[table/" ++ n ++ litS "]") (litS "[table/")) (litS "]")
      = n := by
    have hdp : dropPre (litS "[table/" ++ n ++ litS "]") (litS "[table/") = n ++ litS "]" := by
      unfold dropPre
      rw [if_pos (by
        rw [List.isPrefixOf_iff_prefix, List.append_assoc]; exact List.prefix_append _ _)]
      rw [List.append_assoc, List.drop_left]
    rw [hdp]
    unfold dropSuf
    rw [if_pos ((List.isSuffixOf_iff_suffix).mpr (List.suffix_append _ _))]
    rw [show (n ++ litS "]").length - (litS "]").length = n.length from by
      simp only [List.length_append]; omega]
    rw [List.take_left]
  have hb2 : body = ((pre ++ litS "<w:p><w:r><w:t>") ++ (litS "[table/" ++ n ++ litS "]"))
      ++ (litS "</w:t></w:r></w:p>" ++ (sep1 ++ (tb ++ (sep2 ++ (closeParaStr ++ post))))) := by
    rw [hbodyA, hre3, ← List.append_assoc]
  have hOEeq : (pre ++ litS "<w:p><w:r><w:t>").length + (litS "[table/" ++ n).length + 1
      = ((pre ++ litS "<w:p><w:r><w:t>") ++ (litS "[table/" ++ n ++ litS "]")).length := by
    simp only [List.length_append, show (litS "]").length = 1 from by decide]
    omega
  have hL6 : body.drop ((pre ++ litS "<w:p><w:r><w:t>").length
        + (litS "[table/" ++ n).length + 1)
      = litS "</w:t></w:r></w:p>" ++ (sep1 ++ (tb ++ (sep2 ++ (closeParaStr ++ post)))) := by
    rw [hOEeq, hb2, List.drop_left]
  have hreG : litS "</w:t></w:r></w:p>" ++ (sep1 ++ (tb ++ (sep2 ++ (closeParaStr ++ post))))
      = (litS "</w:t></w:r></w:p>" ++ sep1 ++ tb ++ sep2 ++ litS "<w:p><w:r><w:t>")
        ++ (litS "[/table]" ++ (litS "</w:t></w:r></w:p>" ++ post)) := by
    rw [show closeParaStr
      = litS "<w:p><w:r><w:t>" ++ (litS "[/table]" ++ litS "</w:t></w:r></w:p>") from by decide]
    simp [List.append_assoc]
  have hL7 : indexOf? (body.drop ((pre ++ litS "<w:p><w:r><w:t>").length
        + (litS "[table/" ++ n).length + 1)) (litS "[/table]")
      = some (litS "</w:t></w:r></w:p>" ++ sep1 ++ tb ++ sep2
          ++ litS "<w:p><w:r><w:t>").length := by
    rw [hL6, hreG]
    exact indexOf?_first_at (litS "[/table]") (by decide) _ _
      (by rw [List.isPrefixOf_iff_prefix]; exact List.prefix_append _ _)
      (by
        rw [show (litS "[/table]").take ((litS "[/table]").length - 1) = litS "[/table"
          from by decide]
        exact hMar3)
  have hL8 : (body.drop ((pre ++ litS "<w:p><w:r><w:t>").length
        + (litS "[table/" ++ n).length + 1)).take
        (litS "</w:t></w:r></w:p>" ++ sep1 ++ tb ++ sep2 ++ litS "<w:p><w:r><w:t>").length
      = litS "</w:t></w:r></w:p>" ++ sep1 ++ tb ++ sep2 ++ litS "<w:p><w:r><w:t>" := by
    rw [hL6, hreG, List.take_left]
  have hreG1 : litS "</w:t></w:r></w:p>" ++ sep1 ++ tb ++ sep2 ++ litS "<w:p><w:r><w:t>"
      = (litS "</w:t></w:r></w:p>" ++ sep1) ++ (litS "<w:tbl" ++ (litS ">"
        ++ (mid ++ (litS "</w:tbl>" ++ (sep2 ++ litS "<w:p><w:r><w:t>"))))) := by
    rw [htb, show TableOpeningTag = litS "<w:tbl>" from rfl,
      show TableEndingTag = litS "</w:tbl>" from rfl,
      show litS "<w:tbl>" = litS "<w:tbl" ++ litS ">" from by decide]
    simp [List.append_assoc]
  have hL9 : indexOf? (litS "</w:t></w:r></w:p>" ++ sep1 ++ tb ++ sep2
        ++ litS "<w:p><w:r><w:t>") (litS "<w:tbl")
      = some (litS "</w:t></w:r></w:p>" ++ sep1).length := by
    rw [hreG1]
    exact indexOf?_first_at (litS "<w:tbl") (by decide) _ _
      (by rw [List.isPrefixOf_iff_prefix]; exact List.prefix_append _ _)
      (by
        rw [show (litS "<w:tbl").take ((litS "<w:tbl").length - 1) = litS "<w:tb"
          from by decide]
        exact hMar4)
  have hreG2 : litS "</w:t></w:r></w:p>" ++ sep1 ++ tb ++ sep2 ++ litS "<w:p><w:r><w:t>"
      = (litS "</w:t></w:r></w:p>" ++ sep1 ++ litS "<w:tbl>" ++ mid)
        ++ (litS "</w:tbl>" ++ (sep2 ++ litS "<w:p><w:r><w:t>")) := by
    rw [htb, show TableOpeningTag = litS "<w:tbl>" from rfl,
      show TableEndingTag = litS "</w:tbl>" from rfl]
    simp [List.append_assoc]
  have hL10 : indexOf? (litS "</w:t></w:r></w:p>" ++ sep1 ++ tb ++ sep2
        ++ litS "<w:p><w:r><w:t>") (litS "</w:tbl>")
      = some (litS "</w:t></w:r></w:p>" ++ sep1 ++ litS "<w:tbl>" ++ mid).length := by
    rw [hreG2]
    exact indexOf?_first_at (litS "</w:tbl>") (by decide) _ _
      (by rw [List.isPrefixOf_iff_prefix]; exact List.prefix_append _ _)
      (by
        rw [show (litS "</w:tbl>").take ((litS "</w:tbl>").length - 1) = litS "</w:tbl"
          from by decide]
        exact hMar5)
  have hreG3 : litS "</w:t></w:r></w:p>" ++ sep1 ++ tb ++ sep2 ++ litS "<w:p><w:r><w:t>"
      = (litS "</w:t></w:r></w:p>" ++ sep1) ++ (tb ++ (sep2 ++ litS "<w:p><w:r><w:t>")) := by
    simp [List.append_assoc]
  have hL11 : ((litS "</w:t></w:r></w:p>" ++ sep1 ++ tb ++ sep2
        ++ litS "<w:p><w:r><w:t>").drop (litS "</w:t></w:r></w:p>" ++ sep1).length).take
        ((litS "</w:t></w:r></w:p>" ++ sep1 ++ litS "<w:tbl>" ++ mid).length + 8
          - (litS "</w:t></w:r></w:p>" ++ sep1).length)
      = tb := by
    rw [hreG3, List.drop_left,
      show (litS "</w:t></w:r></w:p>" ++ sep1 ++ litS "<w:tbl>" ++ mid).length + 8
          - (litS "</w:t></w:r></w:p>" ++ sep1).length = tb.length from by
        rw [htb]
        simp only [List.length_append, show (litS "<w:tbl>").length = 7 from by decide,
          show TableOpeningTag.length = 7 from by decide,
          show TableEndingTag.length = 8 from by decide]
        omega,
      List.take_left]
  have hbodyP : body = pre ++ (ParagraphOpeningTag
      ++ (litS "<w:r><w:t>[table/" ++ n ++ litS "]</w:t></w:r>") ++ ParagraphClosingTag)
      ++ (sep1 ++ tb ++ sep2 ++ closeParaStr ++ post) := by
    rw [hbody, openParaOf,
      show litS "<w:p><w:r><w:t>[table/" = litS "<w:p>" ++ litS "<w:r><w:t>[table/"
        from by decide,
      show litS "]</w:t></w:r></w:p>" = litS "]</w:t></w:r>" ++ litS "</w:p>" from by decide]
    simp [ParagraphOpeningTag, ParagraphClosingTag, List.append_assoc]
  have hL12 : ReplaceTagWithParagraph body (litS "[/table]") []
      = pre ++ (ParagraphOpeningTag
        ++ (litS "<w:r><w:t>[table/" ++ n ++ litS "]</w:t></w:r>") ++ ParagraphClosingTag)
        ++ (sep1 ++ tb ++ sep2 ++ post) := by
    rw [hbodyP]
    exact rtwp_close_para n pre sep1 tb sep2 post hPre hOpenPara hText hNoClose hGlue hPost
  have hXa : '[' ∉ sep1 ++ tb ++ sep2 ++ post := by
    intro hmem
    rw [htb] at hmem
    simp only [List.mem_append] at hmem
    rcases hmem with ((h | ((h | h) | h)) | h) | h
    · exact hS1 h
    · exact absurd h (by decide)
    · exact hMid h
    · exact absurd h (by decide)
    · exact hS2 h
    · exact hPost h
  have hXd : '[' ∉ sep1 ++ (sep2 ++ post) := by
    intro hmem
    simp only [List.mem_append] at hmem
    rcases hmem with h | h | h
    · exact hS1 h
    · exact hS2 h
    · exact hPost h
  have hL13 : ReplaceTagWithParagraph
      (pre ++ (ParagraphOpeningTag
        ++ (litS "<w:r><w:t>[table/" ++ n ++ litS "]</w:t></w:r>") ++ ParagraphClosingTag)
        ++ (sep1 ++ tb ++ sep2 ++ post))
      (litS "[table/" ++ n ++ litS "]") [] = pre ++ [] ++ (sep1 ++ tb ++ sep2 ++ post) :=
    rtwp_marker_para n pre (sep1 ++ tb ++ sep2 ++ post) [] hPre hOpenPara hText hXa
  refine ⟨?_, ?_, ?_, ?_⟩
  · intro hlk
    simp only [resolveTablesStep, hL1, hL3, hL4, hL5, hL7, hL8, hL9, hL10, hL11, hL12, hlk]
    rw [hL13]
    simp [List.append_assoc]
  · intro raw hlk hni
    simp only [resolveTablesStep, hL1, hL3, hL4, hL5, hL7, hL8, hL9, hL10, hL11, hL12,
      hlk, hni]
    rw [hL13]
    simp [List.append_assoc]
  · intro raw items err hlk hni hrend
    simp only [resolveTablesStep, hL1, hL3, hL4, hL5, hL7, hL8, hL9, hL10, hL11, hL12,
      hlk, hni, hrend]
    rw [hL13]
    simp [List.append_assoc]
  · intro raw items rendered hlk hni hrend htrne
    have hre5 : pre ++ (ParagraphOpeningTag
        ++ (litS "<w:r><w:t>[table/" ++ n ++ litS "]</w:t></w:r>") ++ ParagraphClosingTag)
        ++ (sep1 ++ tb ++ sep2 ++ post)
        = (pre ++ (ParagraphOpeningTag
          ++ (litS "<w:r><w:t>[table/" ++ n ++ litS "]</w:t></w:r>") ++ ParagraphClosingTag)
          ++ sep1) ++ (tb ++ (sep2 ++ post)) := by
      simp [List.append_assoc]
    have htbne : tb ≠ [] := by
      rw [htb]
      exact List.append_ne_nil_of_left_ne_nil
        (List.append_ne_nil_of_left_ne_nil (by decide) mid) TableEndingTag
    have htbtake : tb.take (tb.length - 1) = TableOpeningTag ++ mid ++ litS "</w:tbl" := by
      rw [htb,
        show (TableOpeningTag ++ mid ++ TableEndingTag).length - 1
            = (TableOpeningTag ++ mid).length + 7 from by
          simp only [List.length_append, show TableOpeningTag.length = 7 from by decide,
            show TableEndingTag.length = 8 from by decide]
          omega,
        List.take_append, show TableEndingTag.take 7 = litS "</w:tbl" from by decide]
    have hPop : ParagraphOpeningTag
        ++ (litS "<w:r><w:t>[table/" ++ n ++ litS "]</w:t></w:r>") ++ ParagraphClosingTag
        = openParaOf n := by
      rw [openParaOf,
        show litS "<w:p><w:r><w:t>[table/" = litS "<w:p>" ++ litS "<w:r><w:t>[table/"
          from by decide,
        show litS "]</w:t></w:r></w:p>" = litS "]</w:t></w:r>" ++ litS "</w:p>" from by decide]
      simp [ParagraphOpeningTag, ParagraphClosingTag, List.append_assoc]
    have hL15idx : indexOf? (pre ++ (ParagraphOpeningTag
        ++ (litS "<w:r><w:t>[table/" ++ n ++ litS "]</w:t></w:r>") ++ ParagraphClosingTag)
        ++ (sep1 ++ tb ++ sep2 ++ post)) tb
        = some (pre ++ (ParagraphOpeningTag
          ++ (litS "<w:r><w:t>[table/" ++ n ++ litS "]</w:t></w:r>") ++ ParagraphClosingTag)
          ++ sep1).length := by
      rw [hre5]
      exact indexOf?_first_at tb htbne _ _
        (by rw [List.isPrefixOf_iff_prefix]; exact List.prefix_append _ _)
        (by rw [htbtake, hPop]; exact hTblOnce)
    have hL15 : replaceFirstSub (pre ++ (ParagraphOpeningTag
        ++ (litS "<w:r><w:t>[table/" ++ n ++ litS "]</w:t></w:r>") ++ ParagraphClosingTag)
        ++ (sep1 ++ tb ++ sep2 ++ post)) tb []
        = pre ++ (ParagraphOpeningTag
          ++ (litS "<w:r><w:t>[table/" ++ n ++ litS "]</w:t></w:r>") ++ ParagraphClosingTag)
          ++ (sep1 ++ (sep2 ++ post)) := by
      simp only [replaceFirstSub, hL15idx]
      rw [hre5, List.take_left,
        ← List.append_assoc (pre ++ (ParagraphOpeningTag
          ++ (litS "<w:r><w:t>[table/" ++ n ++ litS "]</w:t></w:r>") ++ ParagraphClosingTag)
          ++ sep1) tb (sep2 ++ post),
        show (pre ++ (ParagraphOpeningTag
            ++ (litS "<w:r><w:t>[table/" ++ n ++ litS "]</w:t></w:r>") ++ ParagraphClosingTag)
            ++ sep1).length + tb.length
          = ((pre ++ (ParagraphOpeningTag
            ++ (litS "<w:r><w:t>[table/" ++ n ++ litS "]</w:t></w:r>") ++ ParagraphClosingTag)
            ++ sep1) ++ tb).length from (List.length_append _ _).symm,
        List.drop_left]
      simp [List.append_assoc]
    simp only [resolveTablesStep, hL1, hL3, hL4, hL5, hL7, hL8, hL9, hL10, hL11, hL12,
      hlk, hni, hrend]
    rw [if_neg htrne]
    rw [hL15]
    rw [rtwp_marker_para n pre (sep1 ++ (sep2 ++ post)) rendered hPre hOpenPara hText hXd]
    simp [List.append_assoc]

/-- C8 witness: a concrete region with absent data — the table survives and
only the two bracket-marker paragraphs disappear. -/
theorem resolveTables_marker_routing_witness :
    resolveTablesStep [] (litS "A" ++ openParaOf (litS "t") ++ litS "B"
        ++ (TableOpeningTag ++ litS "M" ++ TableEndingTag) ++ litS "C" ++ closeParaStr
        ++ litS "D")
      = StepRes.next (litS "A" ++ litS "B" ++ (TableOpeningTag ++ litS "M" ++ TableEndingTag)
          ++ litS "C" ++ litS "D") :=
  (resolveTables_marker_routing [] (litS "A") (litS "t") (litS "B") (litS "M") (litS "C")
      (litS "D") _ _ rfl rfl (by decide) (by decide) (by decide) (by decide) (by decide)
      (by decide) (by decide) (by decide) (by decide) (by decide) (by decide) (by decide)
      (by decide) (by decide) (by decide)).1 rfl
